import Mathlib

/-!
Verification development for the sgnl-actions/testing scenario harness.

The development shallowly embeds the core modules of the repository:

* `assertions.mjs` — the invoke/error assertion engine
  (`assertInvokeReturns`, `assertInvokeThrows`, `assertErrorReturns`,
  `assertErrorThrows`, `runScenarioHandlers`);
* `parse-scenarios.mjs` — scenario-file normalisation, validation and
  common-scenario synthesis (`COMMON_SCENARIOS`, `normaliseScenario`,
  `validateScenario`, `parseScenariosString` modelled after the external
  YAML deserializer has produced a document);
* `setup-nock.mjs` — interceptor installation (`METHOD_MAP`, `setupNock`);
* `parse-fixture.mjs` — raw HTTP fixture parsing (`parseFixtureString`,
  modelled at the character-list level as `parseFixtureChars`);
* the option handling of the orchestrator entry point `runScenarios`
  in `index.mjs` (`mergeDefaults`, the `includeCommon` default).

JavaScript values are modelled by the inductive `JVal`.  Objects carry a
reference tag so that the strict-equality operator on objects compares
identity rather than structure, as `!==` does.  Numbers are modelled as
integers; the repository only ever compares small integer and string
values.  Thrown values are modelled as Error objects (a reference tag
plus a message string); Error objects are always truthy, so the
`if (caught)` checks of the source reduce to whether the call rejected.
-/

namespace SgnlTesting

/-- Model of a JavaScript value as consumed by the harness.  Objects and
errors carry a `ref` tag modelling reference identity. -/
inductive JVal where
  | undefVal
  | null
  | bool (b : Bool)
  | num (n : Int)
  | str (s : String)
  | obj (ref : Nat) (fields : List (String × JVal))
  | errVal (ref : Nat) (message : String)

/-- A JavaScript object seen as an ordered field list (insertion order). -/
abbrev JObj := List (String × JVal)

/-- Model of a thrown JavaScript Error: identity plus message. -/
structure JErr where
  ref : Nat
  message : String
deriving DecidableEq

/-- Wrap an Error as a value (used when the caught error is spread into
the error-handler params). -/
def JErr.toVal (e : JErr) : JVal := .errVal e.ref e.message

/-- JavaScript truthiness. -/
def truthy : JVal → Bool
  | .undefVal => false
  | .null => false
  | .bool b => b
  | .num n => n != 0
  | .str s => s != ""
  | .obj _ _ => true
  | .errVal _ _ => true

/-- JavaScript strict equality.  Primitives compare by value, objects and
errors by reference. -/
def strictEq : JVal → JVal → Bool
  | .undefVal, .undefVal => true
  | .null, .null => true
  | .bool a, .bool b => a == b
  | .num a, .num b => a == b
  | .str a, .str b => a == b
  | .obj r _, .obj s _ => r == s
  | .errVal r _, .errVal s _ => r == s
  | _, _ => false

/-- Property access `o[k]` on an object field list; missing keys give
`undefined`. -/
def lookupObj (o : JObj) (k : String) : JVal :=
  match o with
  | [] => .undefVal
  | (k2, v) :: rest => if k2 = k then v else lookupObj rest k

/-- Does the object have an own property named `k`. -/
def containsKey (o : JObj) (k : String) : Bool :=
  match o with
  | [] => false
  | (k2, _) :: rest => if k2 = k then true else containsKey rest k

/-- Property access on a value; non-objects have no modelled own
properties (the harness only reads properties of plain result objects). -/
def getProp : JVal → String → JVal
  | .obj _ fields, k => lookupObj fields k
  | _, _ => .undefVal

/-- The own enumerable entries of a value, as `Object.entries` yields
them: the field list for a plain object, nothing for other values. -/
def entriesOf : JVal → List (String × JVal)
  | .obj _ fields => fields
  | _ => []

/-- Assignment `o[k] = v` (and the override step of an object spread):
an existing key keeps its position and receives the new value, a new key
is appended. -/
def setKey (o : JObj) (k : String) (v : JVal) : JObj :=
  if containsKey o k then
    o.map (fun p => if p.1 = k then (k, v) else p)
  else
    o ++ [(k, v)]

/-- Object spread `\x7b ...a, ...b \x7d`: the fields of `a` overridden
key-by-key by the fields of `b`, new keys of `b` appended in order. -/
def objSpread (a b : JObj) : JObj :=
  b.foldl (fun acc p => setKey acc p.1 p.2) a

/-- Spreading an arbitrary value (`...(x || \x7b\x7d)` in the source):
objects contribute their fields, absent or non-object values contribute
nothing. -/
def asObjFields : JVal → JObj
  | .obj _ fields => fields
  | _ => []

/-- Substring containment, the semantics of `String.prototype.includes`:
case-sensitive, `strContains h n` holds when `n` occurs contiguously in
`h`. -/
def strContains (hay pat : String) : Bool :=
  decide (pat.toList <:+: hay.toList)

/-- Which handler an assertion failure talks about; the two assertion
function families differ only in this tag of their failure messages. -/
inductive HandlerKind where
  | invokeHandler
  | errorHandler
deriving DecidableEq

/-- The errors the assertion engine can surface: the three
AssertionFailed shapes with the data their messages carry, or the error
thrown by the script itself propagating out of an awaited call. -/
inductive AssertFailure where
  | returnMismatch (who : HandlerKind) (key : String) (expected actual : JVal)
  | expectedThrow (who : HandlerKind)
  | messageMismatch (who : HandlerKind) (expected actual : String)
  | propagated (e : JErr)

/-- Outcome of awaiting one async capability call. -/
inductive CallResult where
  | resolves (v : JVal)
  | rejects (e : JErr)

/-- The entry loop shared by `assertInvokeReturns` and
`assertErrorReturns`: walk the expected entries in order, fail on the
first key whose actual value is not strictly equal to the expected
value. -/
def checkReturnEntries (who : HandlerKind) (result : JVal) :
    List (String × JVal) → Except AssertFailure JVal
  | [] => .ok result
  | (key, value) :: rest =>
    if strictEq (getProp result key) value then
      checkReturnEntries who result rest
    else
      .error (.returnMismatch who key value (getProp result key))

/-- Embedding of `assertInvokeReturns`: the call must resolve (a
rejection propagates), and every expected entry must match strictly. -/
def assertInvokeReturns (call : CallResult) (expected : JVal) :
    Except AssertFailure JVal :=
  match call with
  | .rejects e => .error (.propagated e)
  | .resolves result => checkReturnEntries .invokeHandler result (entriesOf expected)

/-- Embedding of `assertInvokeThrows`: the call must reject; a non-empty
expected message must occur in the caught message. -/
def assertInvokeThrows (call : CallResult) (expectedMessage : String) :
    Except AssertFailure JErr :=
  match call with
  | .resolves _ => .error (.expectedThrow .invokeHandler)
  | .rejects caught =>
    if expectedMessage != "" && !(strContains caught.message expectedMessage) then
      .error (.messageMismatch .invokeHandler expectedMessage caught.message)
    else
      .ok caught

/-- Embedding of `assertErrorReturns` (error-handler variant of
`assertInvokeReturns`). -/
def assertErrorReturns (call : CallResult) (expected : JVal) :
    Except AssertFailure JVal :=
  match call with
  | .rejects e => .error (.propagated e)
  | .resolves result => checkReturnEntries .errorHandler result (entriesOf expected)

/-- Embedding of `assertErrorThrows` (error-handler variant of
`assertInvokeThrows`). -/
def assertErrorThrows (call : CallResult) (expectedMessage : String) :
    Except AssertFailure JErr :=
  match call with
  | .resolves _ => .error (.expectedThrow .errorHandler)
  | .rejects caught =>
    if expectedMessage != "" && !(strContains caught.message expectedMessage) then
      .error (.messageMismatch .errorHandler expectedMessage caught.message)
    else
      .ok caught

/-- An invoke or error expectation as the raw YAML object the engine
probes: a `returns` key (any value, checked for truthiness) and a
`throws` key (a string when present; `none` models the key being
absent). -/
structure RawExpect where
  returns : Option JVal := none
  throws : Option String := none

/-- The two expectation fields `runScenarioHandlers` destructures from a
validated scenario (`invoke` is guaranteed present by scenario
validation; `error` may be absent). -/
structure ScenarioExpect where
  invoke : RawExpect
  error : Option RawExpect := none

/-- The script module under test: a required invoke capability and an
optional error capability, each a function of (params, context).  The
model maps each call directly to its awaited outcome. -/
structure ScriptModel where
  invoke : JObj → JObj → CallResult
  error : Option (JObj → JObj → CallResult) := none

/-- One observed capability call, with the exact arguments passed. -/
inductive CallEvent where
  | invokeCalled (params : JObj) (ctx : JObj)
  | errorCalled (params : JObj) (ctx : JObj)

/-- Result of running the two-phase assertion protocol: the final
outcome and the trace of capability calls made, in order. -/
structure RunOutcome where
  result : Except AssertFailure Unit
  calls : List CallEvent

/-- Truthiness of an optional field access such as
`invokeExpect.returns` (an absent key reads as `undefined`, which is
falsy). -/
def fieldTruthy : Option JVal → Bool
  | none => false
  | some v => truthy v

/-- Embedding of `runScenarioHandlers`: phase 1 runs invoke against the
`returns` or `throws` expectation; after a caught throw, phase 2 runs
the error capability when an `error` expectation exists and the script
exposes the capability, passing the original params extended with an
`error` key holding the caught error, and the original context. -/
def runScenarioHandlers (script : ScriptModel) (params : JObj) (context : JObj)
    (scenario : ScenarioExpect) : RunOutcome :=
  let invokeExpect := scenario.invoke
  let errorExpect := scenario.error
  if fieldTruthy invokeExpect.returns then
    let call := script.invoke params context
    { result := (assertInvokeReturns call (invokeExpect.returns.getD .undefVal)).map (fun _ => ()),
      calls := [.invokeCalled params context] }
  else if invokeExpect.throws.isSome then
    let call := script.invoke params context
    match assertInvokeThrows call (invokeExpect.throws.getD "") with
    | .error f => { result := .error f, calls := [.invokeCalled params context] }
    | .ok caughtError =>
      match errorExpect, script.error with
      | some ee, some errorFn =>
        let errorParams := setKey params "error" caughtError.toVal
        if fieldTruthy ee.returns then
          let ecall := errorFn errorParams context
          { result := (assertErrorReturns ecall (ee.returns.getD .undefVal)).map (fun _ => ()),
            calls := [.invokeCalled params context, .errorCalled errorParams context] }
        else if ee.throws.isSome then
          let ecall := errorFn errorParams context
          { result := (assertErrorThrows ecall (ee.throws.getD "")).map (fun _ => ()),
            calls := [.invokeCalled params context, .errorCalled errorParams context] }
        else
          { result := .ok (), calls := [.invokeCalled params context] }
      | _, _ => { result := .ok (), calls := [.invokeCalled params context] }
  else
    { result := .ok (), calls := [] }

/-- A canned HTTP response as carried in scenario data
(`fixtureData` fields and `COMMON_SCENARIOS`). -/
structure Fixture where
  statusCode : Nat
  headers : List (String × String)
  body : String
deriving DecidableEq

/-- A `request` mapping of a step: HTTP verb, absolute URL, optional
required headers. -/
structure ReqSpec where
  method : String
  url : String
  headers : Option JObj := none

/-- One scenario step: an expected request plus exactly one of a fixture
path, inline fixture data, or a simulated network failure.  The Bool
field models the truthiness check on `networkError`. -/
structure RawStep where
  request : ReqSpec
  fixture : Option String := none
  fixtureData : Option Fixture := none
  networkError : Bool := false

/-- A scenario object as deserialized from YAML and as normalised (the
source uses one plain-object shape for both; `none` models an absent or
falsy field, `common` models the `_common` provenance flag). -/
structure Scenario where
  name : Option String := none
  invoke : Option RawExpect := none
  error : Option RawExpect := none
  steps : Option (List RawStep) := none
  request : Option ReqSpec := none
  fixture : Option String := none
  params : Option JObj := none
  context : Option JObj := none
  common : Bool := false

/-- The conditions `parseScenariosString` raises, with the data their
messages carry; each names the missing field of its message. -/
inductive ScenarioParseError where
  | missingAction
  | missingScenarios
  | missingName (index : Nat)
  | missingInvoke (name : String)
  | missingStepsOrRequest (name : String)
deriving DecidableEq

/-- Embedding of `validateScenario`: `name` is checked first, then
`invoke`. -/
def validateScenario (s : Scenario) (index : Nat) : Except ScenarioParseError Unit :=
  match s.name with
  | none => .error (.missingName index)
  | some n =>
    if s.invoke.isNone then .error (.missingInvoke n)
    else .ok ()

/-- Embedding of `normaliseScenario`: a scenario without `steps` must
carry a top-level `request`, which becomes a single step together with
the top-level `fixture`; the shorthand keys are then removed. -/
def normaliseScenario (s : Scenario) : Except ScenarioParseError Scenario :=
  if s.steps.isSome then .ok s
  else
    match s.request with
    | none => .error (.missingStepsOrRequest (s.name.getD ""))
    | some req =>
      .ok { s with
            steps := some [{ request := req, fixture := s.fixture }],
            request := none,
            fixture := none }

/-- The sequential `doc.scenarios.map((s, i) => ...)` loop: each entry
is validated and then normalised; the first failure aborts. -/
def processScenarios (index : Nat) :
    List Scenario → Except ScenarioParseError (List Scenario)
  | [] => .ok []
  | s :: rest => do
    validateScenario s index
    let n ← normaliseScenario s
    let ns ← processScenarios (index + 1) rest
    .ok (n :: ns)

/-- The body a common-scenario generator yields: steps plus an invoke
expectation. -/
structure GenBody where
  steps : List RawStep
  invoke : RawExpect

/-- One built-in common-scenario template. -/
structure CommonTemplate where
  name : String
  generate : ReqSpec → GenBody

/-- Embedding of `COMMON_SCENARIOS`: the 8 built-in error-path
templates, in declaration order, each producing a single step from the
template request (method and url only) and expecting any throw. -/
def COMMON_SCENARIOS : List CommonTemplate :=
  [ { name := "handles 401 unauthorized",
      generate := fun r =>
        { steps := [{ request := { method := r.method, url := r.url },
                      fixtureData := some
                        { statusCode := 401,
                          headers := [("Content-Type", "application/json")],
                          body := "\x7b\"error\":\"Unauthorized\",\"message\":\"Invalid or expired token\"\x7d" } }],
          invoke := { throws := some "" } } },
    { name := "handles 403 forbidden",
      generate := fun r =>
        { steps := [{ request := { method := r.method, url := r.url },
                      fixtureData := some
                        { statusCode := 403,
                          headers := [("Content-Type", "application/json")],
                          body := "\x7b\"error\":\"Forbidden\",\"message\":\"Insufficient permissions\"\x7d" } }],
          invoke := { throws := some "" } } },
    { name := "handles 429 rate limit",
      generate := fun r =>
        { steps := [{ request := { method := r.method, url := r.url },
                      fixtureData := some
                        { statusCode := 429,
                          headers := [("Content-Type", "application/json"), ("Retry-After", "30")],
                          body := "\x7b\"error\":\"Too Many Requests\",\"message\":\"Rate limit exceeded\"\x7d" } }],
          invoke := { throws := some "" } } },
    { name := "handles 500 internal server error",
      generate := fun r =>
        { steps := [{ request := { method := r.method, url := r.url },
                      fixtureData := some
                        { statusCode := 500,
                          headers := [("Content-Type", "application/json")],
                          body := "\x7b\"error\":\"Internal Server Error\"\x7d" } }],
          invoke := { throws := some "" } } },
    { name := "handles 502 bad gateway",
      generate := fun r =>
        { steps := [{ request := { method := r.method, url := r.url },
                      fixtureData := some
                        { statusCode := 502,
                          headers := [("Content-Type", "text/html")],
                          body := "<html><body>Bad Gateway</body></html>" } }],
          invoke := { throws := some "" } } },
    { name := "handles 503 service unavailable",
      generate := fun r =>
        { steps := [{ request := { method := r.method, url := r.url },
                      fixtureData := some
                        { statusCode := 503,
                          headers := [("Content-Type", "application/json")],
                          body := "\x7b\"error\":\"Service Unavailable\"\x7d" } }],
          invoke := { throws := some "" } } },
    { name := "handles 504 gateway timeout",
      generate := fun r =>
        { steps := [{ request := { method := r.method, url := r.url },
                      fixtureData := some
                        { statusCode := 504,
                          headers := [("Content-Type", "text/html")],
                          body := "<html><body>Gateway Timeout</body></html>" } }],
          invoke := { throws := some "" } } },
    { name := "handles network error",
      generate := fun r =>
        { steps := [{ request := { method := r.method, url := r.url },
                      networkError := true }],
          invoke := { throws := some "" } } } ]

/-- The scenario object pushed for one common template:
`\x7b name, ...generated, _common: true \x7d`. -/
def instantiateCommon (c : CommonTemplate) (templateRequest : ReqSpec) : Scenario :=
  let generated := c.generate templateRequest
  { name := some c.name,
    steps := some generated.steps,
    invoke := some generated.invoke,
    common := true }

/-- The template request for common-scenario synthesis:
`userScenarios[0].steps[0].request`.  Validation guarantees at least one
scenario, and normalisation guarantees a steps array; the defaults are
never reached on parser output. -/
def headStepRequest (users : List Scenario) : ReqSpec :=
  match users with
  | [] => { method := "", url := "" }
  | s :: _ =>
    match s.steps with
    | some (st :: _) => st.request
    | _ => { method := "", url := "" }

/-- The common-scenario synthesis loop: templates whose name already
appears among the user scenario names are skipped, the others are
instantiated from the template request and appended in declaration
order. -/
def commonSynth (users : List Scenario) : List Scenario :=
  (COMMON_SCENARIOS.filter
    (fun c => !((users.map Scenario.name).contains (some c.name)))).map
    (fun c => instantiateCommon c (headStepRequest users))

/-- A scenarios YAML document after deserialization (the external
js-yaml collaborator): the two top-level sections, `none` modelling an
absent or falsy `action` and an absent or non-array `scenarios`. -/
structure ScenariosDoc where
  action : Option JObj := none
  scenarios : Option (List Scenario) := none

/-- The options object of `parseScenariosString`. -/
structure ParseOptions where
  includeCommon : Option Bool := none

/-- Result of a successful parse. -/
structure ParsedScenarios where
  action : JObj
  scenarios : List Scenario

/-- Embedding of `parseScenariosString`, starting from the deserialized
document: `includeCommon` defaults to false; the `action` section and a
non-empty `scenarios` array are required; each scenario is validated and
normalised in order; common scenarios are synthesized on request. -/
def parseScenariosDoc (doc : ScenariosDoc) (options : ParseOptions := {}) :
    Except ScenarioParseError ParsedScenarios :=
  let includeCommon := options.includeCommon.getD false
  match doc.action with
  | none => .error .missingAction
  | some action =>
    match doc.scenarios with
    | none => .error .missingScenarios
    | some scList =>
      if scList.isEmpty then .error .missingScenarios
      else do
        let userScenarios ← processScenarios 0 scList
        let allScenarios :=
          if includeCommon then userScenarios ++ commonSynth userScenarios
          else userScenarios
        .ok { action := action, scenarios := allScenarios }

/-- The options object of the orchestrator entry point `runScenarios`. -/
structure RunOptions where
  includeCommon : Option Bool := none

/-- Model of the parse step of `runScenarios`: the orchestrator
destructures `includeCommon = true` from its options and passes the
resulting flag to the parser explicitly. -/
def runScenariosParse (doc : ScenariosDoc) (options : RunOptions := {}) :
    Except ScenarioParseError ParsedScenarios :=
  let includeCommon := options.includeCommon.getD true
  parseScenariosDoc doc { includeCommon := some includeCommon }

/-- Embedding of `mergeDefaults`: scenario params spread over action
params; the merged context is the two context objects spread shallowly,
with `secrets` and `environment` rebuilt as their own shallow merges. -/
def mergeDefaults (action : JObj) (scenario : Scenario) : JObj × JObj :=
  let params := objSpread (asObjFields (lookupObj action "params")) (scenario.params.getD [])
  let actionContext := asObjFields (lookupObj action "context")
  let scenarioContext := scenario.context.getD []
  let secrets := objSpread (asObjFields (lookupObj actionContext "secrets"))
                           (asObjFields (lookupObj scenarioContext "secrets"))
  let environment := objSpread (asObjFields (lookupObj actionContext "environment"))
                               (asObjFields (lookupObj scenarioContext "environment"))
  let context := setKey (setKey (objSpread actionContext scenarioContext)
                   "secrets" (.obj 0 secrets)) "environment" (.obj 0 environment)
  (params, context)

/-- Embedding of `METHOD_MAP`: the supported verbs and their interceptor
method names. -/
def METHOD_MAP : List (String × String) :=
  [("GET", "get"), ("POST", "post"), ("PUT", "put"), ("PATCH", "patch"),
   ("DELETE", "delete"), ("HEAD", "head"), ("OPTIONS", "options")]

/-- ASCII uppercase conversion of one character (`toUpperCase` on the
ASCII verbs the harness deals in). -/
def upperChar (c : Char) : Char :=
  if 97 ≤ c.toNat ∧ c.toNat ≤ 122 then Char.ofNat (c.toNat - 32) else c

/-- ASCII uppercase conversion, the `request.method.toUpperCase()` of
the source. -/
def upperString (s : String) : String :=
  (s.toList.map upperChar).asString

/-- Lookup `METHOD_MAP[request.method.toUpperCase()]`. -/
def methodFor (method : String) : Option String :=
  (METHOD_MAP.find? (fun p => p.1 == upperString method)).map (fun p => p.2)

/-- What one configured interceptor replies with. -/
inductive ReplyKind where
  | networkErr (message : String)
  | fixtureReply (statusCode : Nat) (body : String) (headers : List (String × String))

/-- One configured nock interceptor handle (scope): the request pattern
it matches and the reply it is configured with. -/
structure NockScope where
  url : String
  method : String
  reqheaders : Option JObj
  reply : ReplyKind

/-- The conditions `setupNock` raises, with the data their messages
carry. -/
inductive SetupFailure where
  | unsupportedMethod (method : String)
  | unresolvedStep (method : String) (url : String)
deriving DecidableEq

/-- The scope `setupNock` pushes for a resolved step (the defaults are
never reached on steps that pass its checks). -/
def stepScope (step : RawStep) : NockScope :=
  { url := step.request.url,
    method := (methodFor step.request.method).getD "",
    reqheaders := step.request.headers,
    reply :=
      if step.networkError then .networkErr "Network error: connection refused"
      else
        match step.fixtureData with
        | some fd => .fixtureReply fd.statusCode fd.body fd.headers
        | none => .networkErr "" }

/-- Embedding of `setupNock`: per step, the verb must map through
`METHOD_MAP`; a step replies with a simulated connection failure when
`networkError` is set, else with its fixture data, else the step is
unresolved.  One scope per step, in step order. -/
def setupNock : List RawStep → Except SetupFailure (List NockScope)
  | [] => .ok []
  | step :: rest =>
    match methodFor step.request.method with
    | none => .error (.unsupportedMethod step.request.method)
    | some _ =>
      if step.networkError then do
        let scopes ← setupNock rest
        .ok (stepScope step :: scopes)
      else
        match step.fixtureData with
        | some _ => do
          let scopes ← setupNock rest
          .ok (stepScope step :: scopes)
        | none => .error (.unresolvedStep step.request.method step.request.url)

/-- Single left-to-right pass replacing CR-LF by LF, the semantics of
`raw.replace(/\r\n/g, "\n")`; a replacement is not rescanned. -/
def replCRLF : List Char → List Char
  | [] => []
  | [c] => [c]
  | c :: d :: rest =>
    if c = '\r' ∧ d = '\n' then '\n' :: replCRLF rest
    else c :: replCRLF (d :: rest)

/-- Decides that the two-character pattern `x y` occurs nowhere in the
list (used for CR-LF and for the blank-line pattern LF-LF). -/
def noPair (x y : Char) : List Char → Bool
  | [] => true
  | [_] => true
  | c :: d :: rest =>
    if c = x ∧ d = y then false else noPair x y (d :: rest)

/-- Split at the first LF-LF boundary, the semantics of
`indexOf("\n\n")`: everything before it, and the remainder when a
boundary exists. -/
def splitBlank : List Char → List Char × Option (List Char)
  | [] => ([], none)
  | [c] => ([c], none)
  | c :: d :: rest =>
    if c = '\n' ∧ d = '\n' then ([], some rest)
    else
      let p := splitBlank (d :: rest)
      (c :: p.1, p.2)

/-- Split on LF, the semantics of `split("\n")`; always non-empty. -/
def splitLinesAux : List Char → List (List Char)
  | [] => [[]]
  | c :: rest =>
    if c = '\n' then [] :: splitLinesAux rest
    else
      match splitLinesAux rest with
      | [] => [[c]]
      | l :: ls => (c :: l) :: ls

/-- Whitespace as trimmed by `String.prototype.trim` (the fixtures are
ASCII, where the two notions agree). -/
def isWSChar (c : Char) : Bool := c.isWhitespace

/-- Trim surrounding whitespace from both ends. -/
def trimChars (l : List Char) : List Char :=
  ((l.dropWhile isWSChar).reverse.dropWhile isWSChar).reverse

/-- Split at the first colon, the semantics of `indexOf(":")` plus the
two slices; `none` when the line has no colon. -/
def splitColon : List Char → Option (List Char × List Char)
  | [] => none
  | c :: rest =>
    if c = ':' then some ([], rest)
    else
      match splitColon rest with
      | some (pre, post) => some (c :: pre, post)
      | none => none

/-- Assignment `headers[name] = value` on the header record: a repeated
name keeps its first position and receives the new value (last
occurrence wins), a new name is appended. -/
def setHeader (hs : List (List Char × List Char)) (k v : List Char) :
    List (List Char × List Char) :=
  if hs.any (fun p => p.1 = k) then
    hs.map (fun p => if p.1 = k then (k, v) else p)
  else
    hs ++ [(k, v)]

/-- The header-parsing loop over the lines after the status line: empty
lines and lines without a colon are skipped; names and values are
trimmed. -/
def parseHeaderLines (hs : List (List Char × List Char)) :
    List (List Char) → List (List Char × List Char)
  | [] => hs
  | line :: rest =>
    if line = [] then parseHeaderLines hs rest
    else
      match splitColon line with
      | none => parseHeaderLines hs rest
      | some (pre, post) =>
        parseHeaderLines (setHeader hs (trimChars pre) (trimChars post)) rest

/-- The character class `\d` of the status-line regex. -/
def isDigitChar (c : Char) : Bool := 48 ≤ c.toNat && c.toNat ≤ 57

/-- The character class `[\d.]` of the status-line regex. -/
def isProtoChar (c : Char) : Bool := isDigitChar c || c = '.'

/-- The ` (\d\d\d)` tail of the status-line pattern: a space and three
digits whose value is the status code; anything may follow. -/
def matchStatusDigits : List Char → Option Nat
  | c0 :: d1 :: d2 :: d3 :: _ =>
    if c0 = ' ' ∧ isDigitChar d1 ∧ isDigitChar d2 ∧ isDigitChar d3 then
      some ((d1.toNat - 48) * 100 + (d2.toNat - 48) * 10 + (d3.toNat - 48))
    else none
  | _ => none

/-- After the literal `HTTP/`: a non-empty run of `[\d.]`, then the
space-and-digits tail.  The run is maximal; backtracking cannot release
characters because a released character would again be in `[\d.]` and
could not match the space. -/
def matchStatusTail (rest : List Char) : Option Nat :=
  if (rest.takeWhile isProtoChar).isEmpty then none
  else matchStatusDigits (rest.dropWhile isProtoChar)

/-- The status-line pattern `HTTP\/[\d.]+ (\d\d\d)` anchored at the
start of the first line. -/
def matchStatus : List Char → Option Nat
  | h1 :: h2 :: h3 :: h4 :: h5 :: rest =>
    if h1 = 'H' ∧ h2 = 'T' ∧ h3 = 'T' ∧ h4 = 'P' ∧ h5 = '/' then matchStatusTail rest
    else none
  | _ => none

/-- The structured record a parsed fixture file yields, at the
character-list level. -/
structure FixtureData where
  statusCode : Nat
  headers : List (List Char × List Char)
  body : List Char
deriving DecidableEq

/-- The MalformedFixture condition, carrying the offending first line. -/
inductive FixtureParseError where
  | invalidStatusLine (line : List Char)
deriving DecidableEq

/-- Embedding of `parseFixtureString` at the character-list level:
normalise line terminators, split at the first blank line (no boundary
means empty body), match the status line, and fold the remaining header
lines into the header record. -/
def parseFixtureChars (raw : List Char) : Except FixtureParseError FixtureData :=
  let normalised := replCRLF raw
  let p := splitBlank normalised
  let headerSection := p.1
  let body := p.2.getD []
  let headerLines := splitLinesAux headerSection
  let statusLine := headerLines.headD []
  match matchStatus statusLine with
  | none => .error (.invalidStatusLine statusLine)
  | some code =>
    .ok { statusCode := code,
          headers := parseHeaderLines [] headerLines.tail,
          body := body }

/-- Decimal digits, most significant first: fueled worker (the fuel
strictly bounds the value, so it never runs out). -/
def natCharsAux : Nat → Nat → List Char
  | _, 0 => []
  | n, fuel + 1 =>
    if n < 10 then [Char.ofNat (48 + n)]
    else natCharsAux (n / 10) fuel ++ [Char.ofNat (48 + n % 10)]

/-- Decimal digits of a natural number, most significant first. -/
def natChars (n : Nat) : List Char := natCharsAux n (n + 1)

/-- Modelled from the spec: the repository has no fixture serializer, so
the status line of the re-serialized text is rendered as the protocol
token `HTTP/1.1`, a space, and the decimal status code. -/
def statusLineChars (code : Nat) : List Char :=
  'H' :: 'T' :: 'T' :: 'P' :: '/' :: '1' :: '.' :: '1' :: ' ' :: natChars code

/-- Modelled from the spec: serializing a parsed fixture back to text,
as stated by the claim - the status line, then each header as name,
colon, space, value on its own line, then a blank line, then the body
verbatim. -/
def serializeFixtureChars (f : FixtureData) : List Char :=
  statusLineChars f.statusCode ++
    '\n' :: (f.headers.map (fun p => p.1 ++ ':' :: ' ' :: p.2 ++ ['\n'])).flatten ++
    '\n' :: f.body

/-- Last value bound to a key across an object literal fragment; this is
the value an object spread leaves for that key. -/
def lookupLast (o : JObj) (k : String) : Option JVal :=
  match o with
  | [] => none
  | (k2, v) :: rest =>
    match lookupLast rest k with
    | some w => some w
    | none => if k2 = k then some v else none

/-- Lines joined by single LF separators (how the header block of a
serialized fixture reads between status line and blank line). -/
def joinNL : List (List Char) → List Char
  | [] => []
  | [l] => l
  | l :: ls => l ++ '\n' :: joinNL ls

/-- A list whose first and last characters, when present, are not
whitespace. -/
def TrimmedEnds (l : List Char) : Prop :=
  (∀ c, l.head? = some c → isWSChar c = false) ∧
  (∀ c, l.getLast? = some c → isWSChar c = false)

/-- The shape every header record produced by the fixture parser has:
trimmed LF-free names and values, colon-free names, and pairwise
distinct names. -/
def HdrInv (hs : List (List Char × List Char)) : Prop :=
  (∀ p ∈ hs, trimChars p.1 = p.1 ∧ trimChars p.2 = p.2 ∧
     ':' ∉ p.1 ∧ '\n' ∉ p.1 ∧ '\n' ∉ p.2) ∧
  (hs.map Prod.fst).Nodup

/-- A concrete single-scenario document used to instantiate parser
properties. -/
def c10Doc : ScenariosDoc :=
  { action := some [],
    scenarios := some [{ name := some "s", invoke := some { throws := some "" },
                         request := some { method := "GET", url := "https://x.example/a" } }] }

/-- The parse result of the concrete document under default options. -/
def c10Out : ParsedScenarios :=
  (parseScenariosDoc c10Doc {}).toOption.getD { action := [], scenarios := [] }

/-- The parse result of the concrete document with common scenarios
included. -/
def c5Out : ParsedScenarios :=
  (parseScenariosDoc c10Doc { includeCommon := some true }).toOption.getD
    { action := [], scenarios := [] }

/-- A concrete well-behaved raw fixture text. -/
def c8GoodRaw : List Char :=
  "HTTP/1.1 200 OK\r\nContent-Type: application/json\r\n\r\nhello body".toList

/-- Its parse result. -/
def c8GoodFix : FixtureData :=
  (parseFixtureChars c8GoodRaw).toOption.getD { statusCode := 0, headers := [], body := [] }

/-! Lookup lemmas for the object-spread model. -/

theorem lookupObj_map_overwrite (o : JObj) (k : String) (v : JVal)
    (h : containsKey o k = true) :
    lookupObj (o.map (fun p => if p.1 = k then (k, v) else p)) k = v := by
  induction o with
  | nil => simp [containsKey] at h
  | cons p rest ih =>
    rw [List.map_cons]
    by_cases hp : p.1 = k
    · rw [if_pos hp]
      simp [lookupObj]
    · rw [if_neg hp]
      have hrest : containsKey rest k = true := by
        simpa [containsKey, hp] using h
      simp [lookupObj, hp, ih hrest]

theorem lookupObj_append_missing (o : JObj) (k : String) (v : JVal)
    (h : containsKey o k = false) :
    lookupObj (o ++ [(k, v)]) k = v := by
  induction o with
  | nil => simp [lookupObj]
  | cons p rest ih =>
    have hp : ¬ p.1 = k := by
      intro hk
      simp [containsKey, hk] at h
    have hrest : containsKey rest k = false := by
      simpa [containsKey, hp] using h
    simp [lookupObj, hp, ih hrest]

theorem lookupObj_setKey_self (o : JObj) (k : String) (v : JVal) :
    lookupObj (setKey o k v) k = v := by
  unfold setKey
  split
  case isTrue h => exact lookupObj_map_overwrite o k v h
  case isFalse h => exact lookupObj_append_missing o k v (by simpa using h)

theorem lookupObj_setKey_ne (o : JObj) (k : String) (v : JVal) (k2 : String)
    (hne : k2 ≠ k) : lookupObj (setKey o k v) k2 = lookupObj o k2 := by
  unfold setKey
  split
  case isTrue h =>
    clear h
    induction o with
    | nil => rfl
    | cons p rest ih =>
      rw [List.map_cons]
      by_cases hp : p.1 = k
      · rw [if_pos hp]
        have hk2 : ¬ k = k2 := fun hk => hne hk.symm
        have hpk2 : ¬ p.1 = k2 := hp ▸ hk2
        simp [lookupObj, hk2, hpk2, ih]
      · rw [if_neg hp]
        simp [lookupObj, ih]
  case isFalse h =>
    clear h
    induction o with
    | nil =>
      have : ¬ k = k2 := fun hk => hne hk.symm
      simp [lookupObj, this]
    | cons p rest ih =>
      by_cases hp : p.1 = k2 <;> simp [lookupObj, hp, ih]

theorem lookupObj_objSpread (a b : JObj) (k : String) :
    lookupObj (objSpread a b) k =
      match lookupLast b k with
      | some v => v
      | none => lookupObj a k := by
  induction b generalizing a with
  | nil => rfl
  | cons p rest ih =>
    have hstep : objSpread a (p :: rest) = objSpread (setKey a p.1 p.2) rest := by
      simp [objSpread]
    rw [hstep, ih]
    cases h : lookupLast rest k with
    | some w => simp [lookupLast, h]
    | none =>
      simp only [lookupLast, h]
      by_cases hp : p.1 = k
      · simp [hp, hp ▸ lookupObj_setKey_self a p.1 p.2]
      · have hk : k ≠ p.1 := fun hk => hp hk.symm
        simp [hp, lookupObj_setKey_ne a p.1 p.2 k hk]

/-- C6: `mergeDefaults` merges params, context.secrets and
context.environment key-for-key - a key bound at scenario level takes
its scenario value (its last binding, as an object spread leaves it), an
unbound key inherits the action-level value, with no deeper merging; and
the concrete example of the spec evaluates as stated. -/
theorem mergeDefaults_override (action : JObj) (scenario : Scenario) (k : String) :
    (lookupObj (mergeDefaults action scenario).1 k =
      (match lookupLast (scenario.params.getD []) k with
       | some v => v
       | none => lookupObj (asObjFields (lookupObj action "params")) k)) ∧
    (lookupObj (asObjFields (lookupObj (mergeDefaults action scenario).2 "secrets")) k =
      (match lookupLast (asObjFields (lookupObj (scenario.context.getD []) "secrets")) k with
       | some v => v
       | none =>
         lookupObj (asObjFields (lookupObj (asObjFields (lookupObj action "context")) "secrets")) k)) ∧
    (lookupObj (asObjFields (lookupObj (mergeDefaults action scenario).2 "environment")) k =
      (match lookupLast (asObjFields (lookupObj (scenario.context.getD []) "environment")) k with
       | some v => v
       | none =>
         lookupObj (asObjFields (lookupObj (asObjFields (lookupObj action "context")) "environment")) k)) ∧
    ((mergeDefaults [("params", JVal.obj 7 [("a", JVal.num 1), ("b", JVal.num 2)])]
        { params := some [("b", JVal.num 3), ("c", JVal.num 4)] }).1 =
      [("a", JVal.num 1), ("b", JVal.num 3), ("c", JVal.num 4)]) := by
  refine ⟨?_, ?_, ?_, rfl⟩
  · exact lookupObj_objSpread _ _ k
  · have hsec : lookupObj (mergeDefaults action scenario).2 "secrets" =
        .obj 0 (objSpread
          (asObjFields (lookupObj (asObjFields (lookupObj action "context")) "secrets"))
          (asObjFields (lookupObj (scenario.context.getD []) "secrets"))) := by
      show lookupObj (setKey (setKey _ "secrets" _) "environment" _) "secrets" = _
      rw [lookupObj_setKey_ne _ _ _ _ (by decide), lookupObj_setKey_self]
    rw [hsec]
    exact lookupObj_objSpread _ _ k
  · have henv : lookupObj (mergeDefaults action scenario).2 "environment" =
        .obj 0 (objSpread
          (asObjFields (lookupObj (asObjFields (lookupObj action "context")) "environment"))
          (asObjFields (lookupObj (scenario.context.getD []) "environment"))) := by
      show lookupObj (setKey (setKey _ "secrets" _) "environment" _) "environment" = _
      rw [lookupObj_setKey_self]
    rw [henv]
    exact lookupObj_objSpread _ _ k

/-- C9: a scenario whose invoke expectation has no truthy `returns`
value and no `throws` key makes `runScenarioHandlers` return without
calling any capability and without raising: the scenario passes
vacuously. -/
theorem runScenarioHandlers_vacuous (script : ScriptModel) (params context : JObj)
    (scenario : ScenarioExpect)
    (hret : fieldTruthy scenario.invoke.returns = false)
    (hthr : scenario.invoke.throws = none) :
    runScenarioHandlers script params context scenario = { result := .ok (), calls := [] } := by
  unfold runScenarioHandlers
  simp [hret, hthr]

theorem runScenarioHandlers_vacuous_witness :
    fieldTruthy (ScenarioExpect.mk { returns := some (JVal.num 0) } none).invoke.returns = false ∧
    (ScenarioExpect.mk { returns := some (JVal.num 0) } none).invoke.throws = none ∧
    runScenarioHandlers
      { invoke := fun _ _ => .resolves (.obj 0 []),
        error := some (fun _ _ => .resolves (.obj 1 [])) } [] []
      (ScenarioExpect.mk { returns := some (JVal.num 0) } none) =
      { result := .ok (), calls := [] } :=
  ⟨rfl, rfl, runScenarioHandlers_vacuous _ _ _ _ rfl rfl⟩

theorem processScenarios_length (i : Nat) (l : List Scenario) (us : List Scenario)
    (h : processScenarios i l = .ok us) : us.length = l.length := by
  induction l generalizing i us with
  | nil =>
    simp only [processScenarios] at h
    cases h
    rfl
  | cons s rest ih =>
    simp only [processScenarios] at h
    cases hv : validateScenario s i <;> rw [hv] at h
    case error e => simp [Bind.bind, Except.bind] at h
    case ok u =>
      cases hn : normaliseScenario s <;> rw [hn] at h
      case error e => simp [Bind.bind, Except.bind] at h
      case ok n =>
        cases hr : processScenarios (i + 1) rest <;> rw [hr] at h
        case error e => simp [Bind.bind, Except.bind] at h
        case ok ns =>
          simp only [Bind.bind, Except.bind] at h
          cases h
          simp [ih _ _ hr]

/-- C10: the string-level parser defaults `includeCommon` to false -
calling it without options synthesizes nothing and yields exactly the
user-defined scenarios - while the orchestrator entry point defaults
`includeCommon` to true and passes that flag to the parser. -/
theorem includeCommon_defaults :
    (∀ doc : ScenariosDoc,
      parseScenariosDoc doc {} = parseScenariosDoc doc { includeCommon := some false }) ∧
    (∀ doc : ScenariosDoc,
      runScenariosParse doc {} = parseScenariosDoc doc { includeCommon := some true }) ∧
    (∀ (doc : ScenariosDoc) (out : ParsedScenarios),
      parseScenariosDoc doc {} = .ok out →
      out.scenarios.length = (doc.scenarios.getD []).length) := by
  refine ⟨fun doc => rfl, fun doc => rfl, fun doc out h => ?_⟩
  cases hact : doc.action
  case none => simp [parseScenariosDoc, hact] at h
  case some a =>
    cases hsc : doc.scenarios
    case none => simp [parseScenariosDoc, hact, hsc] at h
    case some l =>
      cases hemp : l.isEmpty
      case true => simp [parseScenariosDoc, hact, hsc, hemp] at h
      case false =>
        cases hus : processScenarios 0 l
        case error e =>
          simp [parseScenariosDoc, hact, hsc, hemp, hus, Bind.bind, Except.bind] at h
        case ok us =>
          simp only [parseScenariosDoc, hact, hsc, hemp, hus, Bind.bind, Except.bind,
            Option.getD, Bool.false_eq_true, if_false, Except.ok.injEq] at h
          subst h
          simp [hsc, processScenarios_length _ _ _ hus]

theorem includeCommon_defaults_witness :
    parseScenariosDoc c10Doc {} = .ok c10Out ∧
    c10Out.scenarios.length = (c10Doc.scenarios.getD []).length :=
  ⟨rfl, includeCommon_defaults.2.2 c10Doc c10Out rfl⟩

/-! Lemmas on the returns-entry loop. -/

theorem checkReturnEntries_ok_iff (who : HandlerKind) (r : JVal) (l : List (String × JVal)) :
    checkReturnEntries who r l = .ok r ↔
      ∀ kv ∈ l, strictEq (getProp r kv.1) kv.2 = true := by
  induction l with
  | nil => simp [checkReturnEntries]
  | cons kv rest ih =>
    obtain ⟨k, v⟩ := kv
    by_cases hk : strictEq (getProp r k) v = true
    · simp [checkReturnEntries, hk, ih]
    · simp [checkReturnEntries, hk]

theorem checkReturnEntries_first_mismatch (who : HandlerKind) (r : JVal)
    (pre : List (String × JVal)) (k : String) (v : JVal) (rest : List (String × JVal))
    (hpre : ∀ kv ∈ pre, strictEq (getProp r kv.1) kv.2 = true)
    (hk : strictEq (getProp r k) v = false) :
    checkReturnEntries who r (pre ++ (k, v) :: rest) =
      .error (.returnMismatch who k v (getProp r k)) := by
  induction pre with
  | nil => simp [checkReturnEntries, hk]
  | cons kv pre' ih =>
    have h1 : strictEq (getProp r kv.1) kv.2 = true := hpre kv (by simp)
    have h2 : ∀ kv ∈ pre', strictEq (getProp r kv.1) kv.2 = true :=
      fun kv h => hpre kv (by simp [h])
    simp [checkReturnEntries, h1, ih h2]

/-- C2: a `returns` assertion succeeds exactly when the call resolves
and every key of the expected mapping has a strictly equal value in the
actual result; the first mismatching key, in expected order, fails with
the AssertionFailed data naming the key, the expected value and the
actual value; extra keys of the result are never consulted; and the
error-handler variant applies the same rule. -/
theorem assertReturns_matching :
    (∀ (e : JErr) (exp : JVal),
      assertInvokeReturns (.rejects e) exp = .error (.propagated e)) ∧
    (∀ (r exp : JVal),
      assertInvokeReturns (.resolves r) exp = .ok r ↔
        ∀ kv ∈ entriesOf exp, strictEq (getProp r kv.1) kv.2 = true) ∧
    (∀ (r exp : JVal) (pre : List (String × JVal)) (k : String) (v : JVal)
        (rest : List (String × JVal)),
      entriesOf exp = pre ++ (k, v) :: rest →
      (∀ kv ∈ pre, strictEq (getProp r kv.1) kv.2 = true) →
      strictEq (getProp r k) v = false →
      assertInvokeReturns (.resolves r) exp =
        .error (.returnMismatch .invokeHandler k v (getProp r k))) ∧
    (∀ (e : JErr) (exp : JVal),
      assertErrorReturns (.rejects e) exp = .error (.propagated e)) ∧
    (∀ (r exp : JVal),
      assertErrorReturns (.resolves r) exp = .ok r ↔
        ∀ kv ∈ entriesOf exp, strictEq (getProp r kv.1) kv.2 = true) ∧
    (∀ (r exp : JVal) (pre : List (String × JVal)) (k : String) (v : JVal)
        (rest : List (String × JVal)),
      entriesOf exp = pre ++ (k, v) :: rest →
      (∀ kv ∈ pre, strictEq (getProp r kv.1) kv.2 = true) →
      strictEq (getProp r k) v = false →
      assertErrorReturns (.resolves r) exp =
        .error (.returnMismatch .errorHandler k v (getProp r k))) := by
  refine ⟨fun e exp => rfl, fun r exp => ?_, fun r exp pre k v rest he hpre hk => ?_,
          fun e exp => rfl, fun r exp => ?_, fun r exp pre k v rest he hpre hk => ?_⟩
  · exact checkReturnEntries_ok_iff .invokeHandler r (entriesOf exp)
  · show checkReturnEntries .invokeHandler r (entriesOf exp) = _
    rw [he]
    exact checkReturnEntries_first_mismatch _ r pre k v rest hpre hk
  · exact checkReturnEntries_ok_iff .errorHandler r (entriesOf exp)
  · show checkReturnEntries .errorHandler r (entriesOf exp) = _
    rw [he]
    exact checkReturnEntries_first_mismatch _ r pre k v rest hpre hk

theorem assertReturns_matching_witness :
    (entriesOf (JVal.obj 0 [("userId", JVal.str "usr123"), ("status", JVal.num 1)]) =
      [] ++ ("userId", JVal.str "usr123") :: [("status", JVal.num 1)]) ∧
    strictEq (getProp (JVal.obj 1 [("userId", JVal.str "other")]) "userId")
      (JVal.str "usr123") = false ∧
    assertInvokeReturns (.resolves (JVal.obj 1 [("userId", JVal.str "other")]))
      (JVal.obj 0 [("userId", JVal.str "usr123"), ("status", JVal.num 1)]) =
      .error (.returnMismatch .invokeHandler "userId" (JVal.str "usr123") (JVal.str "other")) ∧
    assertErrorReturns (.resolves (JVal.obj 2 [("status", JVal.str "retry_requested")]))
      (JVal.obj 3 [("status", JVal.str "retry_requested")]) =
      .ok (JVal.obj 2 [("status", JVal.str "retry_requested")]) :=
  ⟨rfl, rfl,
   assertReturns_matching.2.2.1 _ _ [] "userId" (JVal.str "usr123") [("status", JVal.num 1)]
     rfl (by simp) rfl,
   (assertReturns_matching.2.2.2.2.1 _ _).mpr (by intro kv h; fin_cases h; rfl)⟩

/-- C3: a `throws` assertion fails with the expected-to-throw
AssertionFailed data when the call resolves; when the call rejects, a
non-empty expected substring succeeds exactly when the caught message
contains it (case-sensitively), failing otherwise with the data naming
the expected substring and the actual message; the empty expected string
accepts any rejection; and the error-handler variant applies the same
rule. -/
theorem assertThrows_matching :
    (∀ (v : JVal) (t : String),
      assertInvokeThrows (.resolves v) t = .error (.expectedThrow .invokeHandler)) ∧
    (∀ e : JErr, assertInvokeThrows (.rejects e) "" = .ok e) ∧
    (∀ (e : JErr) (t : String), t ≠ "" →
      (assertInvokeThrows (.rejects e) t = .ok e ↔ strContains e.message t = true)) ∧
    (∀ (e : JErr) (t : String), t ≠ "" → strContains e.message t = false →
      assertInvokeThrows (.rejects e) t =
        .error (.messageMismatch .invokeHandler t e.message)) ∧
    (∀ (v : JVal) (t : String),
      assertErrorThrows (.resolves v) t = .error (.expectedThrow .errorHandler)) ∧
    (∀ e : JErr, assertErrorThrows (.rejects e) "" = .ok e) ∧
    (∀ (e : JErr) (t : String), t ≠ "" →
      (assertErrorThrows (.rejects e) t = .ok e ↔ strContains e.message t = true)) ∧
    (∀ (e : JErr) (t : String), t ≠ "" → strContains e.message t = false →
      assertErrorThrows (.rejects e) t =
        .error (.messageMismatch .errorHandler t e.message)) := by
  refine ⟨fun v t => rfl, fun e => rfl, fun e t ht => ?_, fun e t ht hc => ?_,
          fun v t => rfl, fun e => rfl, fun e t ht => ?_, fun e t ht hc => ?_⟩
  · unfold assertInvokeThrows
    cases hc : strContains e.message t <;> simp [bne_iff_ne, ht, hc]
  · unfold assertInvokeThrows
    simp [bne_iff_ne, ht, hc]
  · unfold assertErrorThrows
    cases hc : strContains e.message t <;> simp [bne_iff_ne, ht, hc]
  · unfold assertErrorThrows
    simp [bne_iff_ne, ht, hc]

theorem assertThrows_matching_witness :
    ("rate limit" ≠ "" ∧
      assertInvokeThrows (.rejects ⟨1, "the rate limit was exceeded"⟩) "rate limit" =
        .ok ⟨1, "the rate limit was exceeded"⟩) ∧
    ("Unauthorized" ≠ "" ∧
      assertErrorThrows (.rejects ⟨2, "ok message"⟩) "Unauthorized" =
        .error (.messageMismatch .errorHandler "Unauthorized" "ok message")) ∧
    assertInvokeThrows (.rejects ⟨3, "anything"⟩) "" = .ok ⟨3, "anything"⟩ :=
  ⟨⟨by decide,
    (assertThrows_matching.2.2.1 ⟨1, "the rate limit was exceeded"⟩ "rate limit"
      (by decide)).mpr (by decide)⟩,
   ⟨by decide,
    assertThrows_matching.2.2.2.2.2.2.2 ⟨2, "ok message"⟩ "Unauthorized"
      (by decide) (by decide)⟩,
   assertThrows_matching.2.1 ⟨3, "anything"⟩⟩

/-- C1: when the invoke expectation is of the `throws` form, the
expectation when present is a well-formed tagged union, and the invoke
call rejects with an acceptable message, `runScenarioHandlers` calls the
error capability if and only if the scenario has an `error` expectation
and the script exposes an error capability; when called, it receives the
original merged params extended with an `error` key holding the exact
caught error, and the original merged context. -/
theorem runScenarioHandlers_error_capability (script : ScriptModel)
    (params context : JObj) (scenario : ScenarioExpect) (t : String) (e : JErr)
    (hret : fieldTruthy scenario.invoke.returns = false)
    (hthr : scenario.invoke.throws = some t)
    (hcall : script.invoke params context = .rejects e)
    (hmsg : t = "" ∨ strContains e.message t = true)
    (hwf : ∀ ee, scenario.error = some ee →
      (fieldTruthy ee.returns || ee.throws.isSome) = true) :
    ((scenario.error.isSome ∧ script.error.isSome) →
      (runScenarioHandlers script params context scenario).calls =
        [.invokeCalled params context,
         .errorCalled (setKey params "error" e.toVal) context]) ∧
    (¬ (scenario.error.isSome ∧ script.error.isSome) →
      (runScenarioHandlers script params context scenario).calls =
        [.invokeCalled params context]) := by
  have hthrow : assertInvokeThrows (script.invoke params context) t = .ok e := by
    rw [hcall]
    unfold assertInvokeThrows
    rcases hmsg with hmsg | hmsg
    · simp [hmsg]
    · simp [hmsg]
  constructor
  · rintro ⟨hse, hsc⟩
    obtain ⟨ee, hee⟩ := Option.isSome_iff_exists.mp hse
    obtain ⟨efn, hefn⟩ := Option.isSome_iff_exists.mp hsc
    have hwf2 := hwf ee hee
    simp only [runScenarioHandlers, hret, Bool.false_eq_true, if_false, hthr,
      Option.isSome_some, if_true, Option.getD_some, hthrow, hee, hefn]
    cases hr : fieldTruthy ee.returns
    · have hts : ee.throws.isSome = true := by simpa [hr] using hwf2
      simp [hr, hts]
    · simp [hr]
  · intro hno
    simp only [runScenarioHandlers, hret, Bool.false_eq_true, if_false, hthr,
      Option.isSome_some, if_true, Option.getD_some, hthrow]
    cases hee : scenario.error with
    | none => cases hsc : script.error <;> simp [hee, hsc]
    | some ee =>
      cases hsc : script.error with
      | none => simp [hee, hsc]
      | some efn =>
        exact absurd ⟨by simp [hee], by simp [hsc]⟩ hno

theorem runScenarioHandlers_error_capability_witness :
    (runScenarioHandlers
      { invoke := fun _ _ => .rejects ⟨1, "hit the rate limit"⟩,
        error := some (fun _ _ => .resolves (.obj 2 [("status", JVal.str "retry_requested")])) }
      [("p", JVal.num 1)] [("c", JVal.num 2)]
      { invoke := { throws := some "rate limit" },
        error := some { returns := some (.obj 3 [("status", JVal.str "retry_requested")]) } }).calls =
      [.invokeCalled [("p", JVal.num 1)] [("c", JVal.num 2)],
       .errorCalled (setKey [("p", JVal.num 1)] "error" (JErr.toVal ⟨1, "hit the rate limit"⟩))
         [("c", JVal.num 2)]] :=
  (runScenarioHandlers_error_capability
    { invoke := fun _ _ => .rejects ⟨1, "hit the rate limit"⟩,
      error := some (fun _ _ => .resolves (.obj 2 [("status", JVal.str "retry_requested")])) }
    [("p", JVal.num 1)] [("c", JVal.num 2)]
    { invoke := { throws := some "rate limit" },
      error := some { returns := some (.obj 3 [("status", JVal.str "retry_requested")]) } }
    "rate limit" ⟨1, "hit the rate limit"⟩
    rfl rfl rfl (Or.inr (by decide))
    (by intro ee hee; cases hee; rfl)).1 ⟨rfl, rfl⟩

/-- C4 (amended): scenario-file validation runs in the order (1)
top-level `action`, (2) non-empty `scenarios` sequence, then per
scenario (3) `name`, (4) `invoke`, (5) `steps` or top-level `request`;
each check fails with the MalformedScenarioFile condition naming the
missing field, and a scenario missing both `steps`/`request` and
`invoke` therefore fails naming `invoke`, because the `invoke` check
runs before the `steps`/`request` check. -/
theorem scenario_validation_order :
    (∀ (opts : ParseOptions) (scs : Option (List Scenario)),
      parseScenariosDoc { action := none, scenarios := scs } opts = .error .missingAction) ∧
    (∀ (opts : ParseOptions) (a : JObj),
      parseScenariosDoc { action := some a, scenarios := none } opts = .error .missingScenarios) ∧
    (∀ (opts : ParseOptions) (a : JObj),
      parseScenariosDoc { action := some a, scenarios := some [] } opts = .error .missingScenarios) ∧
    (∀ (opts : ParseOptions) (a : JObj) (s : Scenario) (rest : List Scenario),
      s.name = none →
      parseScenariosDoc { action := some a, scenarios := some (s :: rest) } opts =
        .error (.missingName 0)) ∧
    (∀ (opts : ParseOptions) (a : JObj) (s : Scenario) (n : String) (rest : List Scenario),
      s.name = some n → s.invoke = none →
      parseScenariosDoc { action := some a, scenarios := some (s :: rest) } opts =
        .error (.missingInvoke n)) ∧
    (∀ (opts : ParseOptions) (a : JObj) (s : Scenario) (n : String) (rest : List Scenario),
      s.name = some n → s.invoke.isSome → s.steps = none → s.request = none →
      parseScenariosDoc { action := some a, scenarios := some (s :: rest) } opts =
        .error (.missingStepsOrRequest n)) := by
  refine ⟨fun opts scs => rfl, fun opts a => rfl, fun opts a => rfl,
          fun opts a s rest hn => ?_, fun opts a s n rest hn hi => ?_,
          fun opts a s n rest hn hi hst hrq => ?_⟩
  · simp [parseScenariosDoc, processScenarios, validateScenario, hn,
      Bind.bind, Except.bind]
  · simp [parseScenariosDoc, processScenarios, validateScenario, hn, hi,
      Bind.bind, Except.bind]
  · obtain ⟨iv, hiv⟩ := Option.isSome_iff_exists.mp hi
    simp [parseScenariosDoc, processScenarios, validateScenario, normaliseScenario,
      hn, hiv, hst, hrq, Bind.bind, Except.bind]

/-- C4 counterexample: per the claim, a scenario missing both
`steps`/`request` and `invoke` should fail naming `steps`/`request`, but
the parser fails naming `invoke` on such a scenario. -/
theorem scenario_validation_order_counterexample :
    parseScenariosDoc
      { action := some [], scenarios := some [{ name := some "s" }] } {} =
      .error (.missingInvoke "s") ∧
    parseScenariosDoc
      { action := some [], scenarios := some [{ name := some "s" }] } {} ≠
      .error (.missingStepsOrRequest "s") := by
  constructor
  · rfl
  · intro h
    have h2 : ScenarioParseError.missingInvoke "s" = .missingStepsOrRequest "s" :=
      Except.error.inj
        ((rfl :
          parseScenariosDoc
            { action := some [], scenarios := some [{ name := some "s" }] } {} =
            .error (.missingInvoke "s")).symm.trans h)
    exact ScenarioParseError.noConfusion h2

theorem scenario_validation_order_witness :
    parseScenariosDoc { action := none, scenarios := none } {} = .error .missingAction ∧
    parseScenariosDoc { action := some [], scenarios := some [{ name := some "s" }] } {} =
      .error (.missingInvoke "s") ∧
    parseScenariosDoc
      { action := some [], scenarios := some [{ name := some "s", invoke := some {} }] } {} =
      .error (.missingStepsOrRequest "s") :=
  ⟨scenario_validation_order.1 {} none,
   scenario_validation_order.2.2.2.2.1 {} [] { name := some "s" } "s" [] rfl rfl,
   scenario_validation_order.2.2.2.2.2 {} [] { name := some "s", invoke := some {} } "s" []
     rfl rfl rfl rfl⟩

/-! Lemmas on interceptor setup. -/

theorem setupNock_ok_all (steps : List RawStep)
    (h : ∀ s ∈ steps, (methodFor s.request.method).isSome = true ∧
      (s.networkError || s.fixtureData.isSome) = true) :
    setupNock steps = .ok (steps.map stepScope) := by
  induction steps with
  | nil => rfl
  | cons st rest ih =>
    obtain ⟨hm, hr⟩ := h st (by simp)
    obtain ⟨m, hm2⟩ := Option.isSome_iff_exists.mp hm
    have hrest := ih (fun s hs => h s (by simp [hs]))
    simp only [setupNock, hm2]
    cases hne : st.networkError
    · have hfd : st.fixtureData.isSome = true := by simpa [hne] using hr
      obtain ⟨fd, hfd2⟩ := Option.isSome_iff_exists.mp hfd
      simp [hne, hfd2, hrest, Bind.bind, Except.bind]
    · simp [hne, hrest, Bind.bind, Except.bind]

theorem setupNock_ok_sound (steps : List RawStep) (l : List NockScope)
    (h : setupNock steps = .ok l) :
    ∀ s ∈ steps, (methodFor s.request.method).isSome = true ∧
      (s.networkError || s.fixtureData.isSome) = true := by
  induction steps generalizing l with
  | nil => simp
  | cons st rest ih =>
    intro s hs
    cases hm : methodFor st.request.method with
    | none => simp [setupNock, hm] at h
    | some m =>
      simp only [setupNock, hm] at h
      cases hne : st.networkError with
      | true =>
        rw [hne] at h
        simp only [if_true] at h
        cases hrec : setupNock rest <;> rw [hrec] at h <;>
          simp [Bind.bind, Except.bind] at h
        rcases List.mem_cons.mp hs with hs | hs
        · subst hs
          exact ⟨by simp [hm], by simp [hne]⟩
        · exact ih _ hrec s hs
      | false =>
        rw [hne] at h
        simp only [Bool.false_eq_true, if_false] at h
        cases hfd : st.fixtureData with
        | none => rw [hfd] at h; simp at h
        | some fd =>
          rw [hfd] at h
          cases hrec : setupNock rest <;> rw [hrec] at h <;>
            simp [Bind.bind, Except.bind] at h
          rcases List.mem_cons.mp hs with hs | hs
          · subst hs
            exact ⟨by simp [hm], by simp [hfd]⟩
          · exact ih _ hrec s hs

theorem setupNock_err_unsupported (steps : List RawStep) (m : String)
    (h : setupNock steps = .error (.unsupportedMethod m)) :
    ∃ s ∈ steps, s.request.method = m ∧ methodFor m = none := by
  induction steps with
  | nil => simp [setupNock] at h
  | cons st rest ih =>
    cases hm : methodFor st.request.method with
    | none =>
      simp only [setupNock, hm, Except.error.injEq, SetupFailure.unsupportedMethod.injEq] at h
      exact ⟨st, by simp, h, h ▸ hm⟩
    | some mm =>
      simp only [setupNock, hm] at h
      cases hne : st.networkError with
      | true =>
        rw [hne] at h
        simp only [if_true] at h
        cases hrec : setupNock rest <;> rw [hrec] at h <;>
          simp [Bind.bind, Except.bind] at h
        obtain ⟨s, hs, h1, h2⟩ := ih (h ▸ hrec)
        exact ⟨s, by simp [hs], h1, h2⟩
      | false =>
        rw [hne] at h
        simp only [Bool.false_eq_true, if_false] at h
        cases hfd : st.fixtureData with
        | none => rw [hfd] at h; simp at h
        | some fd =>
          rw [hfd] at h
          cases hrec : setupNock rest <;> rw [hrec] at h <;>
            simp [Bind.bind, Except.bind] at h
          obtain ⟨s, hs, h1, h2⟩ := ih (h ▸ hrec)
          exact ⟨s, by simp [hs], h1, h2⟩

theorem setupNock_err_unresolved (steps : List RawStep) (m u : String)
    (h : setupNock steps = .error (.unresolvedStep m u)) :
    ∃ s ∈ steps, s.request.method = m ∧ s.request.url = u ∧
      (s.networkError || s.fixtureData.isSome) = false := by
  induction steps with
  | nil => simp [setupNock] at h
  | cons st rest ih =>
    cases hm : methodFor st.request.method with
    | none => simp [setupNock, hm] at h
    | some mm =>
      simp only [setupNock, hm] at h
      cases hne : st.networkError with
      | true =>
        rw [hne] at h
        simp only [if_true] at h
        cases hrec : setupNock rest <;> rw [hrec] at h <;>
          simp [Bind.bind, Except.bind] at h
        obtain ⟨s, hs, h1, h2, h3⟩ := ih (h ▸ hrec)
        exact ⟨s, by simp [hs], h1, h2, h3⟩
      | false =>
        rw [hne] at h
        simp only [Bool.false_eq_true, if_false] at h
        cases hfd : st.fixtureData with
        | none =>
          rw [hfd] at h
          simp only [Except.error.injEq, SetupFailure.unresolvedStep.injEq] at h
          exact ⟨st, by simp, h.1, h.2, by simp [hne, hfd]⟩
        | some fd =>
          rw [hfd] at h
          cases hrec : setupNock rest <;> rw [hrec] at h <;>
            simp [Bind.bind, Except.bind] at h
          obtain ⟨s, hs, h1, h2, h3⟩ := ih (h ▸ hrec)
          exact ⟨s, by simp [hs], h1, h2, h3⟩

/-- C7: interceptor installation succeeds on a step list exactly when
every verb maps through METHOD_MAP and every step carries fixture data
or a network-error flag, installing one scope per step in step order; a
raised UnsupportedMethod condition comes from a step with an unsupported
verb, a raised UnresolvedStep condition from a step with neither
fixture data nor network error, and any bad step makes installation
fail. -/
theorem setupNock_spec (steps : List RawStep) :
    ((∀ s ∈ steps, (methodFor s.request.method).isSome = true ∧
        (s.networkError || s.fixtureData.isSome) = true) →
      setupNock steps = .ok (steps.map stepScope)) ∧
    (∀ m, setupNock steps = .error (.unsupportedMethod m) →
      ∃ s ∈ steps, s.request.method = m ∧ methodFor m = none) ∧
    (∀ m u, setupNock steps = .error (.unresolvedStep m u) →
      ∃ s ∈ steps, s.request.method = m ∧ s.request.url = u ∧
        (s.networkError || s.fixtureData.isSome) = false) ∧
    ((∃ s ∈ steps, (methodFor s.request.method) = none ∨
        (s.networkError || s.fixtureData.isSome) = false) →
      ∃ e, setupNock steps = .error e) := by
  refine ⟨setupNock_ok_all steps, fun m => setupNock_err_unsupported steps m,
          fun m u => setupNock_err_unresolved steps m u, fun hbad => ?_⟩
  cases hres : setupNock steps with
  | error e => exact ⟨e, rfl⟩
  | ok l =>
    obtain ⟨s, hs, hb⟩ := hbad
    obtain ⟨h1, h2⟩ := setupNock_ok_sound steps l hres s hs
    rcases hb with hb | hb
    · rw [hb] at h1
      simp at h1
    · rw [hb] at h2
      simp at h2

theorem setupNock_spec_witness :
    setupNock [{ request := { method := "get", url := "https://x.example/a" },
                 fixtureData := some { statusCode := 200, headers := [], body := "" } }] =
      .ok [stepScope { request := { method := "get", url := "https://x.example/a" },
                       fixtureData := some { statusCode := 200, headers := [], body := "" } }] ∧
    (∃ e, setupNock [{ request := { method := "TRACE", url := "https://x.example/a" },
                       fixtureData := some { statusCode := 200, headers := [], body := "" } }] =
      .error e) :=
  ⟨(setupNock_spec _).1 (by intro s hs; fin_cases hs; exact ⟨by decide, by decide⟩),
   (setupNock_spec _).2.2.2
     ⟨{ request := { method := "TRACE", url := "https://x.example/a" },
        fixtureData := some { statusCode := 200, headers := [], body := "" } },
      by simp, Or.inl (by decide)⟩⟩

/-! Lemmas on common-scenario synthesis. -/

theorem instantiateCommon_name (c : CommonTemplate) (r : ReqSpec) :
    (instantiateCommon c r).name = some c.name := rfl

theorem instantiateCommon_props :
    ∀ c ∈ COMMON_SCENARIOS, ∀ r : ReqSpec,
      (instantiateCommon c r).common = true ∧
      (instantiateCommon c r).invoke = some { returns := none, throws := some "" } ∧
      ∃ st, (instantiateCommon c r).steps = some [st] ∧ st.request.method = r.method ∧
        st.request.url = r.url ∧ st.request.headers = none := by
  intro c hc r
  fin_cases hc <;> exact ⟨rfl, rfl, _, rfl, rfl, rfl, rfl⟩

theorem commonSynth_names (users : List Scenario) :
    (commonSynth users).map Scenario.name =
      (COMMON_SCENARIOS.filter
        (fun c => !((users.map Scenario.name).contains (some c.name)))).map
        (fun c => some c.name) := by
  unfold commonSynth
  rw [List.map_map]
  rfl

theorem commonSynth_names_nodup (users : List Scenario) :
    ((commonSynth users).map Scenario.name).Nodup := by
  rw [commonSynth_names]
  have h8 : ((COMMON_SCENARIOS.map (fun c => some c.name)) : List (Option String)).Nodup := by
    decide
  exact h8.sublist ((List.filter_sublist _).map _)

theorem commonSynth_mem_names (users : List Scenario) (x : Option String)
    (hx : x ∈ (commonSynth users).map Scenario.name) :
    ∃ c ∈ COMMON_SCENARIOS, x = some c.name ∧
      (users.map Scenario.name).contains (some c.name) = false := by
  rw [commonSynth_names] at hx
  obtain ⟨c, hc, hcx⟩ := List.mem_map.mp hx
  obtain ⟨hcm, hpred⟩ := List.mem_filter.mp hc
  refine ⟨c, hcm, hcx.symm, ?_⟩
  simpa using hpred

/-- C5: parsing a well-formed scenario file with includeCommon yields
the user scenarios in order followed by at most 8 synthesized ones in
template-declaration order (401, 403, 429, 500, 502, 503, 504, network
error), each generated from the first user scenario's first step
request, tagged with the provenance flag, expecting any throw; a
template whose name matches a user scenario name is suppressed, so user
name uniqueness gives final name uniqueness. -/
theorem parse_common_synthesis (doc : ScenariosDoc) (out : ParsedScenarios)
    (h : parseScenariosDoc doc { includeCommon := some true } = .ok out) :
    ∃ users : List Scenario,
      processScenarios 0 (doc.scenarios.getD []) = .ok users ∧
      users.length = (doc.scenarios.getD []).length ∧
      out.scenarios = users ++ commonSynth users ∧
      (commonSynth users).length ≤ 8 ∧
      COMMON_SCENARIOS.map CommonTemplate.name =
        ["handles 401 unauthorized", "handles 403 forbidden", "handles 429 rate limit",
         "handles 500 internal server error", "handles 502 bad gateway",
         "handles 503 service unavailable", "handles 504 gateway timeout",
         "handles network error"] ∧
      (∀ t ∈ commonSynth users, t.common = true ∧
        t.invoke = some { returns := none, throws := some "" } ∧
        ∃ st, t.steps = some [st] ∧ st.request.method = (headStepRequest users).method ∧
          st.request.url = (headStepRequest users).url ∧ st.request.headers = none) ∧
      (∀ c ∈ COMMON_SCENARIOS,
        ((users.map Scenario.name).contains (some c.name) = true →
          some c.name ∉ (commonSynth users).map Scenario.name) ∧
        ((users.map Scenario.name).contains (some c.name) = false →
          some c.name ∈ (commonSynth users).map Scenario.name)) ∧
      ((users.map Scenario.name).Nodup → (out.scenarios.map Scenario.name).Nodup) := by
  cases hact : doc.action
  case none => simp [parseScenariosDoc, hact] at h
  case some a =>
  cases hsc : doc.scenarios
  case none => simp [parseScenariosDoc, hact, hsc] at h
  case some scList =>
  cases hemp : scList.isEmpty
  case true => simp [parseScenariosDoc, hact, hsc, hemp] at h
  case false =>
  cases hus : processScenarios 0 scList
  case error e =>
    simp [parseScenariosDoc, hact, hsc, hemp, hus, Bind.bind, Except.bind] at h
  case ok users =>
  simp only [parseScenariosDoc, hact, hsc, hemp, hus, Bind.bind, Except.bind,
    Option.getD, Bool.false_eq_true, if_false, if_true, Except.ok.injEq] at h
  subst h
  refine ⟨users, by simpa [hsc] using hus, by simpa [hsc] using processScenarios_length _ _ _ hus,
          rfl, ?_, rfl, ?_, ?_, ?_⟩
  · simpa [commonSynth] using List.length_filter_le _ _
  · intro t ht
    obtain ⟨c, hcf, hct⟩ := List.mem_map.mp ht
    obtain ⟨hcm, _⟩ := List.mem_filter.mp hcf
    obtain ⟨h1, h2, h3⟩ := instantiateCommon_props c hcm (headStepRequest users)
    exact hct ▸ ⟨h1, h2, h3⟩
  · intro c hcm
    constructor
    · intro hin hmem
      obtain ⟨c2, hc2m, hc2x, hc2f⟩ := commonSynth_mem_names users _ hmem
      have : c2.name = c.name := by
        injection hc2x with hx
        exact hx.symm
      rw [this] at hc2f
      rw [hc2f] at hin
      cases hin
    · intro hnc
      rw [commonSynth_names]
      exact List.mem_map.mpr
        ⟨c, List.mem_filter.mpr ⟨hcm, by rw [hnc]; rfl⟩, rfl⟩
  · intro hnd
    show ((users ++ commonSynth users).map Scenario.name).Nodup
    rw [List.map_append]
    refine hnd.append (commonSynth_names_nodup users) ?_
    intro x hxu hxs
    obtain ⟨c, hcm, hcx, hcf⟩ := commonSynth_mem_names users x hxs
    rw [hcx] at hxu
    have htrue : (users.map Scenario.name).contains (some c.name) = true :=
      List.elem_iff.mpr hxu
    rw [htrue] at hcf
    cases hcf

theorem parse_common_synthesis_witness :
    ∃ users : List Scenario,
      processScenarios 0 (c10Doc.scenarios.getD []) = .ok users ∧
      users.length = (c10Doc.scenarios.getD []).length ∧
      c5Out.scenarios = users ++ commonSynth users ∧
      (commonSynth users).length ≤ 8 ∧
      COMMON_SCENARIOS.map CommonTemplate.name =
        ["handles 401 unauthorized", "handles 403 forbidden", "handles 429 rate limit",
         "handles 500 internal server error", "handles 502 bad gateway",
         "handles 503 service unavailable", "handles 504 gateway timeout",
         "handles network error"] ∧
      (∀ t ∈ commonSynth users, t.common = true ∧
        t.invoke = some { returns := none, throws := some "" } ∧
        ∃ st, t.steps = some [st] ∧ st.request.method = (headStepRequest users).method ∧
          st.request.url = (headStepRequest users).url ∧ st.request.headers = none) ∧
      (∀ c ∈ COMMON_SCENARIOS,
        ((users.map Scenario.name).contains (some c.name) = true →
          some c.name ∉ (commonSynth users).map Scenario.name) ∧
        ((users.map Scenario.name).contains (some c.name) = false →
          some c.name ∈ (commonSynth users).map Scenario.name)) ∧
      ((users.map Scenario.name).Nodup → (c5Out.scenarios.map Scenario.name).Nodup) :=
  parse_common_synthesis c10Doc c5Out rfl

/-! Character-list lemmas for the fixture round-trip. -/

theorem noPair_cons_iff (x y c : Char) (l : List Char) :
    noPair x y (c :: l) = true ↔
      ¬(c = x ∧ l.head? = some y) ∧ noPair x y l = true := by
  cases l with
  | nil => simp [noPair]
  | cons d r =>
    by_cases hcd : c = x ∧ d = y
    · simp [noPair, hcd]
    · simp [noPair, hcd]

theorem replCRLF_of_noPair (l : List Char) (h : noPair '\r' '\n' l = true) :
    replCRLF l = l := by
  induction l with
  | nil => rfl
  | cons c rest ih =>
    cases rest with
    | nil => rfl
    | cons d r =>
      rw [noPair_cons_iff] at h
      obtain ⟨h1, h2⟩ := h
      have hcd : ¬(c = '\r' ∧ d = '\n') := fun ⟨ha, hb⟩ => h1 ⟨ha, by simp [hb]⟩
      show replCRLF (c :: d :: r) = _
      simp only [replCRLF, hcd, if_false]
      rw [ih h2]

theorem noPair_append (x y : Char) (a b : List Char)
    (ha : noPair x y a = true) (hb : noPair x y b = true)
    (hj : ¬(a.getLast? = some x ∧ b.head? = some y)) :
    noPair x y (a ++ b) = true := by
  induction a with
  | nil => simpa using hb
  | cons c a' ih =>
    rw [List.cons_append, noPair_cons_iff]
    rw [noPair_cons_iff] at ha
    obtain ⟨h1, h2⟩ := ha
    cases a' with
    | nil =>
      refine ⟨?_, by simpa using hb⟩
      rintro ⟨hc, hh⟩
      exact hj ⟨by simp [hc], by simpa using hh⟩
    | cons e a'' =>
      refine ⟨?_, ih h2 (by simpa [List.getLast?_cons_cons] using hj)⟩
      rintro ⟨hc, hh⟩
      rw [List.cons_append, List.head?_cons] at hh
      exact h1 ⟨hc, by simpa using hh⟩

theorem noPair_of_fst_not_mem (x y : Char) (l : List Char) (h : x ∉ l) :
    noPair x y l = true := by
  induction l with
  | nil => rfl
  | cons c rest ih =>
    rw [noPair_cons_iff]
    refine ⟨fun ⟨hc, _⟩ => h ?_, ih fun hm => h (List.mem_cons_of_mem c hm)⟩
    rw [← hc]
    exact List.mem_cons_self c rest

theorem noPair_of_snd_not_mem (x y : Char) (l : List Char) (h : y ∉ l) :
    noPair x y l = true := by
  induction l with
  | nil => rfl
  | cons c rest ih =>
    rw [noPair_cons_iff]
    constructor
    · rintro ⟨_, hh⟩
      cases rest with
      | nil => simp at hh
      | cons d r =>
        rw [List.head?_cons] at hh
        have hd : d = y := by simpa using hh
        exact h (by rw [← hd]; exact List.mem_cons_of_mem _ (List.mem_cons_self d r))
    · exact ih fun hm => h (List.mem_cons_of_mem _ hm)

theorem splitBlank_boundary (a b : List Char)
    (ha : noPair '\n' '\n' a = true) (hl : a.getLast? ≠ some '\n') :
    splitBlank (a ++ '\n' :: '\n' :: b) = (a, some b) := by
  induction a with
  | nil => simp [splitBlank]
  | cons c a' ih =>
    cases a' with
    | nil =>
      have hc : ¬ c = '\n' := by simpa using hl
      show splitBlank (c :: '\n' :: '\n' :: b) = ([c], some b)
      simp only [splitBlank, if_neg (fun h : c = '\n' ∧ _ => hc h.1)]
      simp [splitBlank]
    | cons e a'' =>
      rw [noPair_cons_iff] at ha
      obtain ⟨h1, h2⟩ := ha
      have hce : ¬(c = '\n' ∧ e = '\n') := fun ⟨hx, hy⟩ => h1 ⟨hx, by simp [hy]⟩
      have hl2 : (e :: a'').getLast? ≠ some '\n' := by
        simpa [List.getLast?_cons_cons] using hl
      have hstep := ih h2 hl2
      show splitBlank (c :: e :: (a'' ++ '\n' :: '\n' :: b)) = (c :: e :: a'', some b)
      simp only [splitBlank, hce, if_false]
      rw [show e :: (a'' ++ '\n' :: '\n' :: b) = (e :: a'') ++ '\n' :: '\n' :: b from rfl,
        hstep]

theorem splitLinesAux_noNL (a : List Char) (h : '\n' ∉ a) : splitLinesAux a = [a] := by
  induction a with
  | nil => rfl
  | cons c rest ih =>
    have hc : ¬ c = '\n' := fun hc => h (by rw [← hc]; exact List.mem_cons_self c rest)
    have := ih fun hm => h (List.mem_cons_of_mem _ hm)
    simp [splitLinesAux, hc, this]

theorem splitLinesAux_append (a b : List Char) (h : '\n' ∉ a) :
    splitLinesAux (a ++ '\n' :: b) = a :: splitLinesAux b := by
  induction a with
  | nil => simp [splitLinesAux]
  | cons c a' ih =>
    have hc : ¬ c = '\n' := fun hc => h (by rw [← hc]; exact List.mem_cons_self c a')
    have hstep := ih fun hm => h (List.mem_cons_of_mem _ hm)
    rw [List.cons_append]
    simp [splitLinesAux, hc, hstep]

theorem flatten_lines (ls : List (List Char)) (h : ls ≠ []) :
    (ls.map (fun l => l ++ ['\n'])).flatten = joinNL ls ++ ['\n'] := by
  induction ls with
  | nil => cases h rfl
  | cons l ls' ih =>
    cases ls' with
    | nil => simp [joinNL]
    | cons l2 ls'' =>
      rw [List.map_cons, List.flatten_cons, ih (by simp)]
      simp [joinNL]

theorem splitLinesAux_joinNL (ls : List (List Char)) (h1 : ∀ l ∈ ls, '\n' ∉ l)
    (h2 : ls ≠ []) : splitLinesAux (joinNL ls) = ls := by
  induction ls with
  | nil => cases h2 rfl
  | cons l ls' ih =>
    cases ls' with
    | nil => simpa [joinNL] using splitLinesAux_noNL l (h1 l (by simp))
    | cons l2 ls'' =>
      show splitLinesAux (l ++ '\n' :: joinNL (l2 :: ls'')) = _
      rw [splitLinesAux_append _ _ (h1 l (by simp))]
      rw [ih (fun x hx => h1 x (by simp [hx])) (by simp)]

theorem joinNL_ne_nil (ls : List (List Char)) (h : ∀ l ∈ ls, l ≠ []) (h2 : ls ≠ []) :
    joinNL ls ≠ [] := by
  cases ls with
  | nil => cases h2 rfl
  | cons l ls' =>
    cases ls' with
    | nil => simpa [joinNL] using h l (by simp)
    | cons l2 ls'' => simp [joinNL]

theorem joinNL_noDoubleNL (ls : List (List Char)) (h1 : ∀ l ∈ ls, '\n' ∉ l)
    (hne : ∀ l ∈ ls, l ≠ []) : noPair '\n' '\n' (joinNL ls) = true := by
  induction ls with
  | nil => rfl
  | cons l ls' ih =>
    cases ls' with
    | nil => exact noPair_of_fst_not_mem _ _ _ (h1 l (by simp))
    | cons l2 ls'' =>
      show noPair '\n' '\n' (l ++ '\n' :: joinNL (l2 :: ls'')) = true
      refine noPair_append _ _ _ _ (noPair_of_fst_not_mem _ _ _ (h1 l (by simp))) ?_ ?_
      · rw [noPair_cons_iff]
        refine ⟨?_, ih (fun x hx => h1 x (by simp [hx])) (fun x hx => hne x (by simp [hx]))⟩
        rintro ⟨_, hh⟩
        have hl2ne : l2 ≠ [] := hne l2 (by simp)
        cases hl2 : l2 with
        | nil => exact hl2ne hl2
        | cons c2 r2 =>
          have hhead : (joinNL (l2 :: ls'')).head? = some c2 := by
            cases ls'' with
            | nil => simp [joinNL, hl2]
            | cons l3 ls3 => simp [joinNL, hl2]
          rw [hhead] at hh
          have hc2 : c2 = '\n' := by simpa using hh
          exact h1 l2 (by simp) (by rw [hl2, ← hc2]; exact List.mem_cons_self _ _)
      · rintro ⟨hlast, _⟩
        have : '\n' ∈ l := List.mem_of_mem_getLast? (hlast : l.getLast? = some '\n')
        exact h1 l (by simp) this

theorem dropWhile_head_false (p : Char → Bool) (l : List Char) (c : Char)
    (h : (l.dropWhile p).head? = some c) : p c = false := by
  induction l with
  | nil => simp [List.dropWhile] at h
  | cons d rest ih =>
    by_cases hd : p d = true
    · rw [List.dropWhile_cons, if_pos hd] at h
      exact ih h
    · rw [List.dropWhile_cons, if_neg hd] at h
      rw [List.head?_cons] at h
      have : d = c := by simpa using h
      rw [← this]
      exact Bool.not_eq_true _ |>.mp hd

theorem dropWhile_eq_self_of_head (p : Char → Bool) (l : List Char)
    (h : ∀ c, l.head? = some c → p c = false) : l.dropWhile p = l := by
  cases l with
  | nil => rfl
  | cons c rest =>
    rw [List.dropWhile_cons, if_neg ?_]
    rw [h c rfl]
    simp

theorem trimmed_trimChars (l : List Char) : TrimmedEnds (trimChars l) := by
  constructor
  · intro c hc
    unfold trimChars at hc
    rw [List.head?_reverse] at hc
    set x := (l.dropWhile isWSChar).reverse with hx
    obtain ⟨t, ht⟩ := List.dropWhile_suffix (l := x) isWSChar
    have hne : x.dropWhile isWSChar ≠ [] := by
      intro hnil
      rw [hnil] at hc
      simp at hc
    have hgl : x.getLast? = some c := by
      rw [← ht, List.getLast?_append_of_ne_nil t hne]
      exact hc
    rw [hx, List.getLast?_reverse] at hgl
    exact dropWhile_head_false isWSChar l c hgl
  · intro c hc
    unfold trimChars at hc
    rw [List.getLast?_reverse] at hc
    exact dropWhile_head_false isWSChar _ c hc

theorem trimChars_of_trimmed (l : List Char) (h : TrimmedEnds l) : trimChars l = l := by
  unfold trimChars
  rw [dropWhile_eq_self_of_head _ _ h.1]
  rw [dropWhile_eq_self_of_head _ _ ?_]
  · exact List.reverse_reverse l
  · intro c hc
    rw [List.head?_reverse] at hc
    exact h.2 c hc

theorem trimChars_idem (l : List Char) : trimChars (trimChars l) = trimChars l :=
  trimChars_of_trimmed _ (trimmed_trimChars l)

theorem trimChars_subset (l : List Char) (c : Char) (h : c ∈ trimChars l) : c ∈ l := by
  unfold trimChars at h
  rw [List.mem_reverse] at h
  have h2 := (List.dropWhile_suffix (l := (l.dropWhile isWSChar).reverse) isWSChar).subset h
  rw [List.mem_reverse] at h2
  exact (List.dropWhile_suffix isWSChar).subset h2

theorem trimChars_cons_ws (c : Char) (l : List Char) (h : isWSChar c = true) :
    trimChars (c :: l) = trimChars l := by
  unfold trimChars
  rw [List.dropWhile_cons, if_pos h]

theorem trimChars_getLast_not_cr (l : List Char) (h : trimChars l = l) :
    l.getLast? ≠ some '\r' := by
  intro hc
  have := (h ▸ trimmed_trimChars l).2 '\r' hc
  simp [isWSChar] at this

theorem splitColon_append (k rest : List Char) (h : ':' ∉ k) :
    splitColon (k ++ ':' :: rest) = some (k, rest) := by
  induction k with
  | nil => simp [splitColon]
  | cons c k' ih =>
    have hc : ¬ c = ':' := fun hc => h (by rw [← hc]; exact List.mem_cons_self c k')
    have hstep := ih fun hm => h (List.mem_cons_of_mem _ hm)
    rw [List.cons_append]
    simp [splitColon, hc, hstep]

theorem splitColon_spec (l pre post : List Char) (h : splitColon l = some (pre, post)) :
    l = pre ++ ':' :: post ∧ ':' ∉ pre := by
  induction l generalizing pre post with
  | nil => simp [splitColon] at h
  | cons c rest ih =>
    by_cases hc : c = ':'
    · simp only [splitColon, hc, eq_self_iff_true, if_true, Option.some.injEq,
        Prod.mk.injEq] at h
      obtain ⟨h2a, h2b⟩ := h
      subst h2a
      subst h2b
      exact ⟨by simp [hc], by simp⟩
    · simp only [splitColon, hc, if_false] at h
      cases hsp : splitColon rest with
      | none => rw [hsp] at h; simp at h
      | some pq =>
        obtain ⟨p, q⟩ := pq
        rw [hsp] at h
        simp only [Option.some.injEq, Prod.mk.injEq] at h
        obtain ⟨h1, h2⟩ := h
        obtain ⟨ih1, ih2⟩ := ih p q hsp
        subst h2
        rw [← h1, ih1]
        refine ⟨by simp, ?_⟩
        intro hm
        rcases List.mem_cons.mp hm with hm | hm
        · exact hc hm.symm
        · exact ih2 hm

theorem splitLinesAux_mem_noNL (x : List Char) : ∀ l ∈ splitLinesAux x, '\n' ∉ l := by
  induction x with
  | nil =>
    intro l hl
    simp only [splitLinesAux, List.mem_singleton] at hl
    subst hl
    simp
  | cons c rest ih =>
    intro l hl
    by_cases hc : c = '\n'
    · simp only [splitLinesAux, hc, if_pos rfl] at hl
      rcases List.mem_cons.mp hl with hl | hl
      · subst hl; simp
      · exact ih l hl
    · simp only [splitLinesAux, hc, if_false] at hl
      cases hsp : splitLinesAux rest with
      | nil =>
        rw [hsp] at hl
        simp at hl
        subst hl
        exact fun hm => hc (List.mem_singleton.mp hm).symm
      | cons l0 ls =>
        rw [hsp] at hl
        rcases List.mem_cons.mp hl with hl | hl
        · subst hl
          intro hm
          rcases List.mem_cons.mp hm with hm | hm
          · exact hc hm.symm
          · exact ih l0 (by rw [hsp]; exact List.mem_cons_self l0 ls) hm
        · exact ih l (by rw [hsp]; exact List.mem_cons_of_mem l0 hl)

theorem setHeader_mem (hs : List (List Char × List Char)) (k v : List Char)
    (p : List Char × List Char) (h : p ∈ setHeader hs k v) : p ∈ hs ∨ p = (k, v) := by
  unfold setHeader at h
  split at h
  · obtain ⟨q, hq, hqe⟩ := List.mem_map.mp h
    by_cases hqk : q.1 = k
    · right; rw [← hqe, if_pos hqk]
    · left; rw [← hqe, if_neg hqk]; exact hq
  · rcases List.mem_append.mp h with h | h
    · left; exact h
    · right; simpa using h

theorem setHeader_keys_nodup (hs : List (List Char × List Char)) (k v : List Char)
    (h : (hs.map Prod.fst).Nodup) : ((setHeader hs k v).map Prod.fst).Nodup := by
  unfold setHeader
  split
  case isTrue hpres =>
    have heq : (hs.map (fun p => if p.1 = k then (k, v) else p)).map Prod.fst =
        hs.map Prod.fst := by
      rw [List.map_map]
      apply List.map_congr_left
      intro p _
      by_cases hp : p.1 = k
      · simp [hp]
      · simp [hp]
    rw [heq]
    exact h
  case isFalse habs =>
    rw [List.map_append]
    rw [List.nodup_append]
    refine ⟨h, by simp, ?_⟩
    intro x hx
    simp only [List.map_cons, List.map_nil, List.mem_singleton]
    intro hxk
    obtain ⟨q, hq, hqx⟩ := List.mem_map.mp hx
    apply habs
    rw [List.any_eq_true]
    exact ⟨q, hq, by simp [hqx, hxk]⟩

theorem parseHeaderLines_inv (lines : List (List Char))
    (acc : List (List Char × List Char)) (hacc : HdrInv acc)
    (hlines : ∀ l ∈ lines, '\n' ∉ l) : HdrInv (parseHeaderLines acc lines) := by
  induction lines generalizing acc with
  | nil => exact hacc
  | cons line rest ih =>
    have hrest : ∀ l ∈ rest, '\n' ∉ l := fun l hl => hlines l (by simp [hl])
    by_cases hl : line = []
    · simp only [parseHeaderLines, hl, if_pos rfl]
      exact ih acc hacc hrest
    · simp only [parseHeaderLines, hl, if_false]
      cases hsp : splitColon line with
      | none => exact ih acc hacc hrest
      | some pq =>
        obtain ⟨pre, post⟩ := pq
        obtain ⟨hline, hcolon⟩ := splitColon_spec line pre post hsp
        have hnl : '\n' ∉ line := hlines line (by simp)
        have hnlpre : '\n' ∉ pre := fun hm => hnl (by rw [hline]; simp [hm])
        have hnlpost : '\n' ∉ post := fun hm => hnl (by rw [hline]; simp [hm])
        refine ih _ ⟨?_, setHeader_keys_nodup acc _ _ hacc.2⟩ hrest
        intro p hp
        rcases setHeader_mem acc _ _ p hp with hp | hp
        · exact hacc.1 p hp
        · rw [hp]
          refine ⟨trimChars_idem pre, trimChars_idem post, ?_, ?_, ?_⟩
          · exact fun hm => hcolon (trimChars_subset pre ':' hm)
          · exact fun hm => hnlpre (trimChars_subset pre '\n' hm)
          · exact fun hm => hnlpost (trimChars_subset post '\n' hm)

theorem matchStatusDigits_le (l : List Char) (n : Nat)
    (h : matchStatusDigits l = some n) : n ≤ 999 := by
  rcases l with _ | ⟨c0, _ | ⟨d1, _ | ⟨d2, _ | ⟨d3, tail⟩⟩⟩⟩
  · simp [matchStatusDigits] at h
  · simp [matchStatusDigits] at h
  · simp [matchStatusDigits] at h
  · simp [matchStatusDigits] at h
  · simp only [matchStatusDigits] at h
    split at h
    case isTrue hc =>
      obtain ⟨_, hd1, hd2, hd3⟩ := hc
      simp only [Option.some.injEq] at h
      unfold isDigitChar at hd1 hd2 hd3
      simp only [Bool.and_eq_true, decide_eq_true_eq] at hd1 hd2 hd3
      omega
    case isFalse => simp at h

theorem matchStatusTail_le (rest : List Char) (n : Nat)
    (h : matchStatusTail rest = some n) : n ≤ 999 := by
  unfold matchStatusTail at h
  split at h
  · simp at h
  · exact matchStatusDigits_le _ n h

theorem matchStatus_le (l : List Char) (n : Nat) (h : matchStatus l = some n) :
    n ≤ 999 := by
  rcases l with _ | ⟨h1, _ | ⟨h2, _ | ⟨h3, _ | ⟨h4, _ | ⟨h5, rest⟩⟩⟩⟩⟩
  · simp [matchStatus] at h
  · simp [matchStatus] at h
  · simp [matchStatus] at h
  · simp [matchStatus] at h
  · simp [matchStatus] at h
  · simp only [matchStatus] at h
    split at h
    · exact matchStatusTail_le rest n h
    · simp at h

theorem parseFixtureChars_inv (raw : List Char) (f : FixtureData)
    (h : parseFixtureChars raw = .ok f) : HdrInv f.headers ∧ f.statusCode ≤ 999 := by
  simp only [parseFixtureChars] at h
  cases hms :
      matchStatus ((splitLinesAux (splitBlank (replCRLF raw)).1).headD []) with
  | none => rw [hms] at h; simp at h
  | some code =>
    rw [hms] at h
    simp only [Except.ok.injEq] at h
    subst h
    constructor
    · refine parseHeaderLines_inv _ [] ⟨by simp, by simp⟩ ?_
      intro l hl
      exact splitLinesAux_mem_noNL _ l ((List.tail_sublist _).subset hl)
    · exact matchStatus_le _ _ hms

theorem digitChar_facts (d : Nat) (h : d < 10) :
    isDigitChar (Char.ofNat (48 + d)) = true ∧ (Char.ofNat (48 + d)).toNat = 48 + d ∧
    Char.ofNat (48 + d) ≠ '\n' ∧ Char.ofNat (48 + d) ≠ '\r' := by
  interval_cases d <;> exact ⟨by decide, by decide, by decide, by decide⟩

theorem natCharsAux_fuel (fuel1 : Nat) :
    ∀ (n fuel2 : Nat), n < fuel1 → n < fuel2 →
      natCharsAux n fuel1 = natCharsAux n fuel2 := by
  induction fuel1 with
  | zero => intro n fuel2 h1 _; omega
  | succ f ih =>
    intro n fuel2 h1 h2
    cases fuel2 with
    | zero => omega
    | succ f2 =>
      simp only [natCharsAux]
      by_cases hn : n < 10
      · simp [hn]
      · rw [if_neg hn, if_neg hn]
        have hlt : n / 10 < f := by omega
        have hlt2 : n / 10 < f2 := by omega
        rw [ih (n / 10) f2 hlt hlt2]

theorem natChars_unfold (n : Nat) :
    natChars n = if n < 10 then [Char.ofNat (48 + n)]
      else natChars (n / 10) ++ [Char.ofNat (48 + n % 10)] := by
  show natCharsAux n (n + 1) = _
  simp only [natCharsAux]
  by_cases hn : n < 10
  · simp [hn]
  · rw [if_neg hn, if_neg hn]
    have : natCharsAux (n / 10) n = natCharsAux (n / 10) (n / 10 + 1) :=
      natCharsAux_fuel n (n / 10) (n / 10 + 1) (by omega) (by omega)
    rw [this]
    rfl

theorem natChars_three (n : Nat) (h1 : 100 ≤ n) (h2 : n ≤ 999) :
    natChars n = [Char.ofNat (48 + n / 100), Char.ofNat (48 + n / 10 % 10),
      Char.ofNat (48 + n % 10)] := by
  rw [natChars_unfold, if_neg (by omega)]
  rw [natChars_unfold, if_neg (by omega)]
  rw [natChars_unfold, if_pos (by omega)]
  have hd : n / 10 / 10 = n / 100 := by
    rw [Nat.div_div_eq_div_mul]
  rw [hd]
  have hm : n / 10 % 10 = n / 10 % 10 := rfl
  simp

theorem setHeader_append_absent (acc : List (List Char × List Char))
    (k v : List Char) (h : ∀ q ∈ acc, q.1 ≠ k) :
    setHeader acc k v = acc ++ [(k, v)] := by
  unfold setHeader
  rw [if_neg ?_]
  intro hany
  rw [List.any_eq_true] at hany
  obtain ⟨q, hq, hqk⟩ := hany
  exact h q hq (by simpa using hqk)

theorem parseHeaderLines_rebuild (pairs : List (List Char × List Char)) :
    ∀ acc : List (List Char × List Char),
      (∀ p ∈ pairs, trimChars p.1 = p.1 ∧ trimChars p.2 = p.2 ∧ ':' ∉ p.1) →
      (∀ p ∈ pairs, ∀ q ∈ acc, p.1 ≠ q.1) →
      (pairs.map Prod.fst).Nodup →
      parseHeaderLines acc (pairs.map (fun p => p.1 ++ ':' :: ' ' :: p.2)) = acc ++ pairs := by
  induction pairs with
  | nil => intro acc _ _ _; simp [parseHeaderLines]
  | cons p ps ih =>
    intro acc hprops hdisj hnodup
    obtain ⟨ht1, ht2, hc1⟩ := hprops p (by simp)
    have hline : p.1 ++ ':' :: ' ' :: p.2 ≠ [] := by simp
    rw [List.map_cons]
    simp only [parseHeaderLines, hline, if_false]
    rw [splitColon_append p.1 (' ' :: p.2) hc1]
    show parseHeaderLines (setHeader acc (trimChars p.1) (trimChars (' ' :: p.2)))
      (ps.map (fun p => p.1 ++ ':' :: ' ' :: p.2)) = acc ++ p :: ps
    rw [trimChars_cons_ws ' ' p.2 (by decide), ht1, ht2]
    rw [setHeader_append_absent acc p.1 p.2 (fun q hq => (hdisj p (by simp) q hq).symm)]
    have hstep := ih (acc ++ [p])
      (fun r hr => hprops r (by simp [hr]))
      (fun r hr q hq => by
        rcases List.mem_append.mp hq with hq | hq
        · exact hdisj r (by simp [hr]) q hq
        · have hpq : q = p := by simpa using hq
          subst hpq
          intro hrq
          have : r.1 ∈ ps.map Prod.fst := List.mem_map.mpr ⟨r, hr, rfl⟩
          rw [hrq] at this
          rw [List.map_cons] at hnodup
          exact (List.nodup_cons.mp hnodup).1 this)
      (by rw [List.map_cons] at hnodup; exact (List.nodup_cons.mp hnodup).2)
    rw [Prod.mk.eta, hstep, List.append_assoc]
    rfl

theorem joinNL_head_not_nl (ls : List (List Char)) (h1 : ∀ l ∈ ls, '\n' ∉ l)
    (hne : ∀ l ∈ ls, l ≠ []) : (joinNL ls).head? ≠ some '\n' := by
  cases ls with
  | nil => simp [joinNL]
  | cons l ls' =>
    cases l with
    | nil => exact absurd rfl (hne [] (by simp))
    | cons c r =>
      have hc : c ≠ '\n' := by
        intro hcn
        exact h1 (c :: r) (by simp) (by rw [← hcn]; exact List.mem_cons_self _ _)
      have hhead : (joinNL ((c :: r) :: ls')).head? = some c := by
        cases ls' with
        | nil => simp [joinNL]
        | cons l2 ls'' => simp [joinNL]
      rw [hhead]
      simp [hc]

theorem joinNL_getLast_mem (ls : List (List Char)) (hne : ∀ l ∈ ls, l ≠ [])
    (c : Char) (h : (joinNL ls).getLast? = some c) : ∃ l ∈ ls, l.getLast? = some c := by
  induction ls with
  | nil => simp [joinNL] at h
  | cons l ls' ih =>
    cases ls' with
    | nil =>
      simp only [joinNL] at h
      exact ⟨l, by simp, h⟩
    | cons l2 ls'' =>
      have hjoin_ne : joinNL (l2 :: ls'') ≠ [] :=
        joinNL_ne_nil _ (fun x hx => hne x (by simp [hx])) (by simp)
      have h2 : (joinNL (l :: l2 :: ls'')).getLast? = (joinNL (l2 :: ls'')).getLast? := by
        show (l ++ '\n' :: joinNL (l2 :: ls'')).getLast? = _
        rw [List.getLast?_append_of_ne_nil l (by simp)]
        show (['\n'] ++ joinNL (l2 :: ls'')).getLast? = _
        rw [List.getLast?_append_of_ne_nil ['\n'] hjoin_ne]
      rw [h2] at h
      obtain ⟨x, hx, hxl⟩ := ih (fun x hx => hne x (by simp [hx])) h
      exact ⟨x, by simp [hx], hxl⟩

theorem statusLineChars_props (n : Nat) (h1 : 100 ≤ n) (h2 : n ≤ 999) :
    '\n' ∉ statusLineChars n ∧ '\r' ∉ statusLineChars n ∧ statusLineChars n ≠ [] := by
  obtain ⟨_, _, ha3, ha4⟩ := digitChar_facts (n / 100) (by omega)
  obtain ⟨_, _, hb3, hb4⟩ := digitChar_facts (n / 10 % 10) (by omega)
  obtain ⟨_, _, hc3, hc4⟩ := digitChar_facts (n % 10) (by omega)
  unfold statusLineChars
  rw [natChars_three n h1 h2]
  refine ⟨?_, ?_, by simp⟩
  · intro hm
    simp only [List.mem_cons, List.not_mem_nil, or_false] at hm
    rcases hm with h | h | h | h | h | h | h | h | h | h | h | h
    all_goals first
      | exact absurd h (by decide)
      | exact ha3 h.symm
      | exact hb3 h.symm
      | exact hc3 h.symm
  · intro hm
    simp only [List.mem_cons, List.not_mem_nil, or_false] at hm
    rcases hm with h | h | h | h | h | h | h | h | h | h | h | h
    all_goals first
      | exact absurd h (by decide)
      | exact ha4 h.symm
      | exact hb4 h.symm
      | exact hc4 h.symm

theorem matchStatus_statusLineChars (n : Nat) (h1 : 100 ≤ n) (h2 : n ≤ 999) :
    matchStatus (statusLineChars n) = some n := by
  obtain ⟨hd1, ht1, _, _⟩ := digitChar_facts (n / 100) (by omega)
  obtain ⟨hd2, ht2, _, _⟩ := digitChar_facts (n / 10 % 10) (by omega)
  obtain ⟨hd3, ht3, _, _⟩ := digitChar_facts (n % 10) (by omega)
  unfold statusLineChars
  rw [natChars_three n h1 h2]
  show matchStatus ('H' :: 'T' :: 'T' :: 'P' :: '/' :: '1' :: '.' :: '1' :: ' ' :: _) = _
  simp only [matchStatus, eq_self_iff_true, and_self, if_true]
  unfold matchStatusTail
  have hp1 : isProtoChar '1' = true := by decide
  have hpd : isProtoChar '.' = true := by decide
  have hps : isProtoChar ' ' = false := by decide
  simp only [List.takeWhile_cons, List.dropWhile_cons, hp1, hpd, hps, if_true, if_false,
    Bool.false_eq_true, List.isEmpty_cons]
  simp only [matchStatusDigits, eq_self_iff_true, true_and]
  rw [if_pos (show _ ∧ _ ∧ _ from ⟨hd1, hd2, hd3⟩)]
  rw [ht1, ht2, ht3]
  have hval : (48 + n / 100 - 48) * 100 + (48 + n / 10 % 10 - 48) * 10 +
      (48 + n % 10 - 48) = n := by omega
  rw [hval]

theorem seg_noCRLF (k v : List Char) (hk : '\n' ∉ k) (hv : '\n' ∉ v)
    (hvt : trimChars v = v) :
    noPair '\r' '\n' (k ++ ':' :: ' ' :: v ++ ['\n']) = true := by
  rw [List.append_assoc]
  show noPair '\r' '\n' (k ++ ':' :: ' ' :: (v ++ ['\n'])) = true
  refine noPair_append _ _ _ _ (noPair_of_snd_not_mem _ _ _ hk) ?_ ?_
  · rw [noPair_cons_iff]
    refine ⟨fun hh => absurd hh.1 (by decide), ?_⟩
    rw [noPair_cons_iff]
    refine ⟨fun hh => absurd hh.1 (by decide), ?_⟩
    refine noPair_append _ _ _ _ (noPair_of_snd_not_mem _ _ _ hv) rfl ?_
    rintro ⟨hlast, _⟩
    exact trimChars_getLast_not_cr v hvt hlast
  · rintro ⟨_, hh⟩
    rw [List.head?_cons] at hh
    simp at hh

theorem segsBlock_noCRLF (headers : List (List Char × List Char)) (body : List Char)
    (hprops : ∀ p ∈ headers, trimChars p.2 = p.2 ∧ '\n' ∉ p.1 ∧ '\n' ∉ p.2)
    (hbody : noPair '\r' '\n' body = true) :
    noPair '\r' '\n'
      ((headers.map (fun p => p.1 ++ ':' :: ' ' :: p.2 ++ ['\n'])).flatten ++
        '\n' :: body) = true := by
  induction headers with
  | nil =>
    simp only [List.map_nil, List.flatten_nil, List.nil_append]
    rw [noPair_cons_iff]
    exact ⟨fun hh => absurd hh.1 (by decide), hbody⟩
  | cons p ps ih =>
    obtain ⟨hvt, hk, hv⟩ := hprops p (by simp)
    rw [List.map_cons, List.flatten_cons, List.append_assoc]
    refine noPair_append _ _ _ _ (seg_noCRLF p.1 p.2 hk hv hvt)
      (ih (fun q hq => hprops q (by simp [hq]))) ?_
    rintro ⟨hlast, _⟩
    have hsegl : (p.1 ++ ':' :: ' ' :: p.2 ++ ['\n']).getLast? = some '\n' := by
      have e1 : p.1 ++ ':' :: ' ' :: p.2 ++ ['\n'] =
          p.1 ++ ([':', ' '] ++ (p.2 ++ ['\n'])) := by simp
      rw [e1, List.getLast?_append_of_ne_nil _ (by simp),
        List.getLast?_append_of_ne_nil _ (by simp),
        List.getLast?_append_of_ne_nil _ (by simp)]
      rfl
    have : some '\n' = some '\r' := hsegl.symm.trans hlast
    simp at this

theorem serialize_noCRLF (f : FixtureData)
    (hS : '\r' ∉ statusLineChars f.statusCode)
    (hprops : ∀ p ∈ f.headers, trimChars p.2 = p.2 ∧ '\n' ∉ p.1 ∧ '\n' ∉ p.2)
    (hbody : noPair '\r' '\n' f.body = true) :
    noPair '\r' '\n' (serializeFixtureChars f) = true := by
  unfold serializeFixtureChars
  rw [List.append_assoc]
  show noPair '\r' '\n' (statusLineChars f.statusCode ++
    '\n' :: ((f.headers.map (fun p => p.1 ++ ':' :: ' ' :: p.2 ++ ['\n'])).flatten ++
      '\n' :: f.body)) = true
  refine noPair_append _ _ _ _ (noPair_of_fst_not_mem _ _ _ hS) ?_ ?_
  · rw [noPair_cons_iff]
    exact ⟨fun hh => absurd hh.1 (by decide),
           segsBlock_noCRLF f.headers f.body hprops hbody⟩
  · rintro ⟨hlast, _⟩
    exact hS (List.mem_of_mem_getLast? hlast)

/-- C8 (amended): for raw HTTP text that parses successfully, provided
the parsed status code has three significant digits (no leading zero)
and the parsed body contains no CR-LF sequence, serializing the parsed
fixture (status line, each header on its own line, a blank line, the
body verbatim) and re-parsing yields the same structured record.  The
two provisos are forced by the counterexamples: a body containing CR-LF
(reachable from raw text containing CR-CR-LF) is normalised away on
re-parse, and a status code below 100 re-serializes to fewer than three
digits, which the status-line pattern rejects. -/
theorem parse_serialize_roundtrip (raw : List Char) (f : FixtureData)
    (h : parseFixtureChars raw = .ok f)
    (hcode : 100 ≤ f.statusCode)
    (hbody : noPair '\r' '\n' f.body = true) :
    parseFixtureChars (serializeFixtureChars f) = .ok f := by
  obtain ⟨⟨hprops, hnodup⟩, hle⟩ := parseFixtureChars_inv raw f h
  clear h
  obtain ⟨code, headers, body⟩ := f
  obtain ⟨hSnl, hScr, hSne⟩ := statusLineChars_props code hcode hle
  have hhead_props : ∀ p ∈ headers, trimChars p.2 = p.2 ∧ '\n' ∉ p.1 ∧ '\n' ∉ p.2 :=
    fun p hp => ⟨(hprops p hp).2.1, (hprops p hp).2.2.2.1, (hprops p hp).2.2.2.2⟩
  have hid : replCRLF (serializeFixtureChars ⟨code, headers, body⟩) =
      serializeFixtureChars ⟨code, headers, body⟩ :=
    replCRLF_of_noPair _ (serialize_noCRLF ⟨code, headers, body⟩ hScr hhead_props hbody)
  simp only [parseFixtureChars, hid]
  cases headers with
  | nil =>
    have hser0 : serializeFixtureChars ⟨code, [], body⟩ =
        statusLineChars code ++ '\n' :: '\n' :: body := by
      unfold serializeFixtureChars
      simp [List.append_assoc]
    have hsb : splitBlank (serializeFixtureChars ⟨code, [], body⟩) =
        (statusLineChars code, some body) := by
      rw [hser0]
      exact splitBlank_boundary _ body (noPair_of_fst_not_mem _ _ _ hSnl)
        (fun hc => hSnl (List.mem_of_mem_getLast? hc))
    simp only [hsb, splitLinesAux_noNL _ hSnl, List.headD_cons, List.tail_cons,
      matchStatus_statusLineChars code hcode hle, parseHeaderLines, Option.getD_some]
  | cons p hs =>
    have hlinesnoNL : ∀ l ∈ (p :: hs).map (fun q => q.1 ++ ':' :: ' ' :: q.2), '\n' ∉ l := by
      intro l hl
      obtain ⟨q, hq, hql⟩ := List.mem_map.mp hl
      obtain ⟨_, hknl, hvnl⟩ := hhead_props q hq
      rw [← hql]
      intro hm
      rcases List.mem_append.mp hm with hm | hm
      · exact hknl hm
      · rcases List.mem_cons.mp hm with hm | hm
        · exact absurd hm.symm (by decide)
        · rcases List.mem_cons.mp hm with hm | hm
          · exact absurd hm.symm (by decide)
          · exact hvnl hm
    have hlinesne : ∀ l ∈ (p :: hs).map (fun q => q.1 ++ ':' :: ' ' :: q.2), l ≠ [] := by
      intro l hl
      obtain ⟨q, _, hql⟩ := List.mem_map.mp hl
      rw [← hql]
      simp
    have hlinesnenil : (p :: hs).map (fun q => q.1 ++ ':' :: ' ' :: q.2) ≠ [] := by simp
    have hflat : ((p :: hs).map (fun q => q.1 ++ ':' :: ' ' :: q.2 ++ ['\n'])).flatten =
        joinNL ((p :: hs).map (fun q => q.1 ++ ':' :: ' ' :: q.2)) ++ ['\n'] := by
      have hmm : (p :: hs).map (fun q => q.1 ++ ':' :: ' ' :: q.2 ++ ['\n']) =
          ((p :: hs).map (fun q => q.1 ++ ':' :: ' ' :: q.2)).map (fun l => l ++ ['\n']) := by
        rw [List.map_map]
        apply List.map_congr_left
        intro q _
        simp
      rw [hmm, flatten_lines _ hlinesnenil]
    have hserial : serializeFixtureChars ⟨code, p :: hs, body⟩ =
        (statusLineChars code ++
          '\n' :: joinNL ((p :: hs).map (fun q => q.1 ++ ':' :: ' ' :: q.2))) ++
          '\n' :: '\n' :: body := by
      show statusLineChars code ++
          '\n' :: ((p :: hs).map (fun q => q.1 ++ ':' :: ' ' :: q.2 ++ ['\n'])).flatten ++
          '\n' :: body = _
      rw [hflat]
      simp [List.append_assoc]
    have hA1 : noPair '\n' '\n' (statusLineChars code ++
        '\n' :: joinNL ((p :: hs).map (fun q => q.1 ++ ':' :: ' ' :: q.2))) = true := by
      refine noPair_append _ _ _ _ (noPair_of_fst_not_mem _ _ _ hSnl) ?_ ?_
      · rw [noPair_cons_iff]
        exact ⟨fun hh => joinNL_head_not_nl _ hlinesnoNL hlinesne hh.2,
               joinNL_noDoubleNL _ hlinesnoNL hlinesne⟩
      · rintro ⟨hlast, _⟩
        exact hSnl (List.mem_of_mem_getLast? hlast)
    have hA2 : (statusLineChars code ++
        '\n' :: joinNL ((p :: hs).map (fun q => q.1 ++ ':' :: ' ' :: q.2))).getLast? ≠
          some '\n' := by
      have hjne : joinNL ((p :: hs).map (fun q => q.1 ++ ':' :: ' ' :: q.2)) ≠ [] :=
        joinNL_ne_nil _ hlinesne hlinesnenil
      rw [List.getLast?_append_of_ne_nil _ (by simp)]
      show (['\n'] ++ joinNL ((p :: hs).map (fun q => q.1 ++ ':' :: ' ' :: q.2))).getLast? ≠ _
      rw [List.getLast?_append_of_ne_nil _ hjne]
      intro hc
      obtain ⟨l, hl, hlast⟩ := joinNL_getLast_mem _ hlinesne '\n' hc
      exact hlinesnoNL l hl (List.mem_of_mem_getLast? hlast)
    have hsb : splitBlank (serializeFixtureChars ⟨code, p :: hs, body⟩) =
        (statusLineChars code ++
          '\n' :: joinNL ((p :: hs).map (fun q => q.1 ++ ':' :: ' ' :: q.2)), some body) := by
      rw [hserial]
      exact splitBlank_boundary _ body hA1 hA2
    have hsl : splitLinesAux (statusLineChars code ++
        '\n' :: joinNL ((p :: hs).map (fun q => q.1 ++ ':' :: ' ' :: q.2))) =
        statusLineChars code :: (p :: hs).map (fun q => q.1 ++ ':' :: ' ' :: q.2) := by
      rw [splitLinesAux_append _ _ hSnl, splitLinesAux_joinNL _ hlinesnoNL hlinesnenil]
    have hreb : parseHeaderLines [] ((p :: hs).map (fun q => q.1 ++ ':' :: ' ' :: q.2)) =
        p :: hs := by
      have := parseHeaderLines_rebuild (p :: hs) []
        (fun q hq => ⟨(hprops q hq).1, (hprops q hq).2.1, (hprops q hq).2.2.1⟩)
        (by simp)
        hnodup
      simpa using this
    simp only [hsb, hsl, List.headD_cons, List.tail_cons,
      matchStatus_statusLineChars code hcode hle, hreb, Option.getD_some]

/-- C8 counterexample: the round-trip equation fails as universally
stated.  Raw text containing CR-CR-LF parses to a body holding a CR-LF,
which re-parsing normalises to LF, and a status code with a leading
zero re-serializes to fewer than three digits, which re-parsing
rejects. -/
theorem parse_serialize_roundtrip_counterexample :
    parseFixtureChars ("HTTP/1.1 200\n\nA\r\r\nB".toList) =
      .ok { statusCode := 200, headers := [], body := ['A', '\r', '\n', 'B'] } ∧
    parseFixtureChars (serializeFixtureChars
        { statusCode := 200, headers := [], body := ['A', '\r', '\n', 'B'] }) =
      .ok { statusCode := 200, headers := [], body := ['A', '\n', 'B'] } ∧
    ({ statusCode := 200, headers := [], body := ['A', '\n', 'B'] } : FixtureData) ≠
      { statusCode := 200, headers := [], body := ['A', '\r', '\n', 'B'] } ∧
    parseFixtureChars ("HTTP/1.1 042\n\nx".toList) =
      .ok { statusCode := 42, headers := [], body := ['x'] } ∧
    parseFixtureChars (serializeFixtureChars
        { statusCode := 42, headers := [], body := ['x'] }) =
      .error (.invalidStatusLine ("HTTP/1.1 42".toList)) :=
  ⟨rfl, rfl, by decide, rfl, rfl⟩

theorem parse_serialize_roundtrip_witness :
    parseFixtureChars c8GoodRaw = .ok c8GoodFix ∧
    100 ≤ c8GoodFix.statusCode ∧
    noPair '\r' '\n' c8GoodFix.body = true ∧
    parseFixtureChars (serializeFixtureChars c8GoodFix) = .ok c8GoodFix :=
  ⟨rfl, by decide, by decide,
   parse_serialize_roundtrip c8GoodRaw c8GoodFix rfl (by decide) (by decide)⟩

end SgnlTesting
